import Mathlib

/-!
Verification of the developer-guides MCP server (markdown guide processor,
hybrid search service and HTTP tool handlers) against its natural-language
specification.

Strings are modelled as `List Char` (JS strings), numbers appearing in
relevance scores as `ℚ` (JS floating point numbers, modelled exactly),
and machine integers as `Nat`.  External libraries (the YAML parser,
`JSON.stringify`) are modelled as explicit function parameters.  The three
storage backends (R2 object store, D1 relational store, Vectorize index)
are modelled as an explicit state record.
-/

set_option maxRecDepth 10000

/-! ## Basic string utilities (JS string primitives used by the sources) -/

/-- Shorthand turning a Lean string literal into the `List Char` string model. -/
def cs (s : String) : List Char := s.toList

/-- The JS `\s` (whitespace) character class, restricted to the code points
that occur in the repository's data: ASCII whitespace plus NBSP and BOM. -/
def isWsJs (c : Char) : Bool :=
  c = ' ' || c = '\t' || c = '\n' || c = '\r' || c = '\x0b' || c = '\x0c' ||
  c = ' ' || c = '﻿'

/-- ASCII lower-casing of a single character (JS `toLowerCase` on the
ASCII-only identifiers used by the sources). -/
def lowerCh (c : Char) : Char :=
  if 'A' ≤ c ∧ c ≤ 'Z' then Char.ofNat (c.toNat + 32) else c

/-- ASCII upper-casing of a single character (for the case-insensitive
`/^(AND|OR|NOT)$/i` test). -/
def upperCh (c : Char) : Char :=
  if 'a' ≤ c ∧ c ≤ 'z' then Char.ofNat (c.toNat - 32) else c

/-- JS `s.toLowerCase()` on ASCII content. -/
def lowerStr (s : List Char) : List Char := s.map lowerCh

/-- JS `s.toUpperCase()` on ASCII content. -/
def upperStr (s : List Char) : List Char := s.map upperCh

/-- Split a string at every `'\n'`, JS `s.split('\n')`. -/
def splitLines : List Char → List (List Char)
  | [] => [[]]
  | c :: rest =>
    if c = '\n' then [] :: splitLines rest
    else
      match splitLines rest with
      | [] => [[c]]
      | h :: t => (c :: h) :: t

/-- Join lines back with `'\n'`, JS `lines.join('\n')`. -/
def joinLines (ls : List (List Char)) : List Char := List.intercalate [Char.ofNat 10] ls

/-- Split a string at every (non-overlapping, leftmost) occurrence of the
two-character separator `"\n\n"`, JS `s.split('\n\n')`. -/
def splitNl2 : List Char → List (List Char)
  | [] => [[]]
  | [c] => [[c]]
  | c1 :: c2 :: rest =>
    if c1 = '\n' ∧ c2 = '\n' then [] :: splitNl2 rest
    else
      match splitNl2 (c2 :: rest) with
      | [] => [[c1]]
      | h :: t => (c1 :: h) :: t

/-- The paragraph separator `"\n\n"`. -/
def nl2 : List Char := ['\n', '\n']

/-- Join paragraphs back with a blank line, JS `paras.join('\n\n')`. -/
def joinNl2 (ls : List (List Char)) : List Char := List.intercalate nl2 ls

/-- Split on maximal runs of characters satisfying `p`, as JS
`s.split(/X+/)` for a character class `X` does (runs at the edges leave
empty pieces).  The `run` flag records that the previous character was
part of a separator run that is still being consumed. -/
def splitRuns (p : Char → Bool) : Bool → List Char → List (List Char)
  | false, [] => [[]]
  | true, [] => [[]]
  | false, c :: rest =>
    if p c then [] :: splitRuns p true rest
    else
      match splitRuns p false rest with
      | [] => [[c]]
      | h :: t => (c :: h) :: t
  | true, c :: rest =>
    if p c then splitRuns p true rest
    else
      match splitRuns p false rest with
      | [] => [[c]]
      | h :: t => (c :: h) :: t

/-- JS `s.split(/\s+/)`. -/
def splitWs (s : List Char) : List (List Char) := splitRuns isWsJs false s

/-- JS `s.replace(/\s+/g, '-')`: every maximal whitespace run becomes one dash. -/
def wsToDash (s : List Char) : List Char := List.intercalate ['-'] (splitWs s)

/-- JS `s.trim()`. -/
def trimJs (s : List Char) : List Char :=
  ((s.dropWhile isWsJs).reverse.dropWhile isWsJs).reverse

/-- Decimal digit characters of a natural number, with explicit fuel so the
definition is structural (the fuel `n + 1` always suffices). -/
def natCharsAux : Nat → Nat → List Char
  | 0, _ => []
  | fuel + 1, n =>
    if n < 10 then [Char.ofNat (48 + n)]
    else natCharsAux fuel (n / 10) ++ [Char.ofNat (48 + n % 10)]

/-- Decimal rendering of a natural number (JS template interpolation of a number). -/
def natChars (n : Nat) : List Char := natCharsAux (n + 1) n

/-! ### Inverse lemmas for the split functions -/

theorem intercalate_cons_head (sep : List Char) (c : Char) (a : List Char)
    (t : List (List Char)) :
    List.intercalate sep ((c :: a) :: t) = c :: List.intercalate sep (a :: t) := by
  cases t <;> simp [List.intercalate, List.intersperse]

theorem splitLines_ne_nil (s : List Char) : splitLines s ≠ [] := by
  induction s with
  | nil => simp [splitLines]
  | cons c rest ih =>
    simp only [splitLines]
    split
    · simp
    · cases h : splitLines rest with
      | nil => simp
      | cons a t => simp

theorem joinLines_splitLines (s : List Char) : joinLines (splitLines s) = s := by
  induction s with
  | nil => rfl
  | cons c rest ih =>
    simp only [splitLines]
    split
    · rename_i hc
      subst hc
      cases h : splitLines rest with
      | nil => exact absurd h (splitLines_ne_nil rest)
      | cons a t =>
        rw [h] at ih
        simpa [joinLines, List.intercalate] using ih
    · rename_i hc
      cases h : splitLines rest with
      | nil => exact absurd h (splitLines_ne_nil rest)
      | cons a t =>
        rw [h] at ih
        rw [joinLines, intercalate_cons_head]
        exact congrArg (c :: ·) ih

theorem splitNl2_ne_nil (s : List Char) : splitNl2 s ≠ [] := by
  match s with
  | [] => simp [splitNl2]
  | [c] => simp [splitNl2]
  | c1 :: c2 :: rest =>
    simp only [splitNl2]
    split
    · simp
    · cases h : splitNl2 (c2 :: rest) with
      | nil => simp
      | cons a t => simp

theorem joinNl2_splitNl2 (s : List Char) : joinNl2 (splitNl2 s) = s := by
  match s with
  | [] => rfl
  | [c] => rfl
  | c1 :: c2 :: rest =>
    have ih1 : joinNl2 (splitNl2 rest) = rest := joinNl2_splitNl2 rest
    have ih2 : joinNl2 (splitNl2 (c2 :: rest)) = c2 :: rest := joinNl2_splitNl2 (c2 :: rest)
    simp only [splitNl2]
    split
    · rename_i hc
      obtain ⟨h1, h2⟩ := hc
      subst h1; subst h2
      cases h : splitNl2 rest with
      | nil => exact absurd h (splitNl2_ne_nil rest)
      | cons a t =>
        rw [h] at ih1
        simpa [joinNl2, nl2, List.intercalate] using ih1
    · cases h : splitNl2 (c2 :: rest) with
      | nil => exact absurd h (splitNl2_ne_nil (c2 :: rest))
      | cons a t =>
        rw [h] at ih2
        rw [joinNl2, intercalate_cons_head]
        exact congrArg (c1 :: ·) ih2

/-- A string containing no newline splits into a single paragraph. -/
theorem splitNl2_no_nl (s : List Char) (h : ∀ c ∈ s, c ≠ '\n') : splitNl2 s = [s] := by
  match s with
  | [] => rfl
  | [c] => rfl
  | c1 :: c2 :: rest =>
    have h1 : c1 ≠ '\n' := h c1 (by simp)
    have ih : splitNl2 (c2 :: rest) = [c2 :: rest] :=
      splitNl2_no_nl (c2 :: rest) (fun c hc => h c (List.mem_cons_of_mem _ hc))
    simp only [splitNl2]
    rw [if_neg (by simp [h1]), ih]

/-! ## Hybrid search service (`GuideSearchService`, MCP server source)

Scores are JS numbers; they are modelled exactly as rationals.  The JS
`Array.prototype.sort` with the comparator `(a, b) => bScore - aScore` is a
stable sort placing larger combined scores first; `List.insertionSort` with
the reflexive relation `scoreGe` is exactly that stable sort. -/

/-- The metadata carried by a search result. -/
structure SRMeta where
  category : List Char
  framework : Option (List Char)
  language : Option (List Char)
  tags : List (List Char)
deriving DecidableEq

/-- `SearchResult` as produced by `keywordSearch` / `semanticSearch`. -/
structure SearchResult006 where
  guideId : List Char
  sectionId : List Char
  title : List Char
  excerpt : List Char
  relevanceScore : ℚ
  metadata : SRMeta
  url : List Char
deriving DecidableEq

/-- The `source` tag attached by `mergeResults`. -/
inductive SearchSource
  | keyword
  | semantic
deriving DecidableEq

/-- A search result spread together with its source tag,
JS `{ ...r, source }`. -/
structure TaggedResult extends SearchResult006 where
  source : SearchSource
deriving DecidableEq

/-- JS `r => ({ ...r, source })`. -/
def tagResult (s : SearchSource) (r : SearchResult006) : TaggedResult := ⟨r, s⟩

/-- The combined score used by the comparator:
`a.relevanceScore * (a.source === 'keyword' ? 1.1 : 1.0)`. -/
def combinedScore (t : TaggedResult) : ℚ :=
  t.relevanceScore * (if t.source = SearchSource.keyword then 11 / 10 else 1)

/-- The sort relation of the comparator `(a, b) => bScore - aScore`:
`a` may stay before `b` iff `b`'s combined score is not larger. -/
def scoreGe (a b : TaggedResult) : Prop := combinedScore b ≤ combinedScore a

instance : DecidableRel scoreGe := fun a b => inferInstanceAs (Decidable (_ ≤ _))

instance : IsTotal TaggedResult scoreGe := ⟨fun a b => le_total _ _⟩

instance : IsTrans TaggedResult scoreGe :=
  ⟨fun _ _ _ h1 h2 => le_trans h2 h1⟩

/-- The tagged concatenation of both result lists, sorted descending by
combined score (the `allResults` array of `mergeResults`). -/
def allSorted (kw sem : List SearchResult006) : List TaggedResult :=
  List.insertionSort scoreGe
    (kw.map (tagResult SearchSource.keyword) ++ sem.map (tagResult SearchSource.semantic))

/-- The dedup key: the template literal `` `${guideId}-${sectionId}` ``. -/
def resultKey (r : TaggedResult) : List Char := r.guideId ++ '-' :: r.sectionId

/-- The dedup/truncate loop of `mergeResults`: `seen` is the JS `Set`,
`merged` the accumulated output array. -/
def mergeLoop (limit : Nat) (seen : List (List Char)) (merged : List TaggedResult) :
    List TaggedResult → List TaggedResult
  | [] => merged
  | r :: rest =>
    if resultKey r ∉ seen ∧ merged.length < limit then
      mergeLoop limit (resultKey r :: seen) (merged ++ [r]) rest
    else
      mergeLoop limit seen merged rest

/-- `GuideSearchService.mergeResults`. -/
def mergeResults (kw sem : List SearchResult006) (limit : Nat) : List TaggedResult :=
  mergeLoop limit [] [] (allSorted kw sem)

/-- Specification-side description of the dedup step: keep the first
occurrence of every key not yet seen. -/
def dedupByKey (seen : List (List Char)) : List TaggedResult → List TaggedResult
  | [] => []
  | r :: rest =>
    if resultKey r ∈ seen then dedupByKey seen rest
    else r :: dedupByKey (resultKey r :: seen) rest

theorem mergeLoop_of_full (limit : Nat) (seen : List (List Char))
    (merged : List TaggedResult) (l : List TaggedResult) (h : limit ≤ merged.length) :
    mergeLoop limit seen merged l = merged := by
  induction l generalizing seen with
  | nil => rfl
  | cons r rest ih =>
    simp only [mergeLoop]
    rw [if_neg (by simp [Nat.not_lt.mpr h]), ih]

theorem mergeLoop_eq_dedup (limit : Nat) (l : List TaggedResult) :
    ∀ seen merged, mergeLoop limit seen merged l =
      merged ++ (dedupByKey seen l).take (limit - merged.length) := by
  induction l with
  | nil => intro seen merged; simp [mergeLoop, dedupByKey]
  | cons r rest ih =>
    intro seen merged
    by_cases hseen : resultKey r ∈ seen
    · simp only [mergeLoop, dedupByKey, if_pos hseen]
      rw [if_neg (by simp [hseen]), ih]
    · by_cases hlen : merged.length < limit
      · simp only [mergeLoop, dedupByKey, if_neg hseen]
        rw [if_pos (by exact ⟨hseen, hlen⟩), ih]
        have htake : limit - merged.length = (limit - (merged.length + 1)) + 1 := by omega
        rw [htake, List.take_succ_cons]
        simp
      · simp only [mergeLoop, dedupByKey, if_neg hseen]
        rw [if_neg (fun hc => hlen hc.2)]
        rw [mergeLoop_of_full limit seen merged rest (Nat.not_lt.mp hlen)]
        have : limit - merged.length = 0 := Nat.sub_eq_zero_of_le (Nat.not_lt.mp hlen)
        simp [this]

theorem mem_dedupByKey (r : TaggedResult) (l : List TaggedResult) :
    ∀ seen, r ∈ dedupByKey seen l → resultKey r ∉ seen := by
  induction l with
  | nil => intro seen h; simp [dedupByKey] at h
  | cons a rest ih =>
    intro seen h
    simp only [dedupByKey] at h
    split at h
    · exact ih seen h
    · rcases List.mem_cons.mp h with h1 | h1
      · subst h1; assumption
      · intro hc
        exact ih _ h1 (List.mem_cons_of_mem _ hc)

theorem dedupByKey_pairwise (l : List TaggedResult) :
    ∀ seen, (dedupByKey seen l).Pairwise (fun a b => resultKey a ≠ resultKey b) := by
  induction l with
  | nil => intro seen; simp [dedupByKey]
  | cons a rest ih =>
    intro seen
    simp only [dedupByKey]
    split
    · exact ih seen
    · refine List.Pairwise.cons ?_ (ih _)
      intro b hb
      have := mem_dedupByKey b rest _ hb
      simp only [List.mem_cons] at this
      intro hc
      exact this (Or.inl hc.symm)

theorem dedupByKey_sublist (l : List TaggedResult) :
    ∀ seen, (dedupByKey seen l).Sublist l := by
  induction l with
  | nil => intro seen; simp [dedupByKey]
  | cons a rest ih =>
    intro seen
    simp only [dedupByKey]
    split
    · exact (ih seen).trans (List.sublist_cons_self a rest)
    · exact (ih _).cons₂ a

set_option linter.unusedVariables false

theorem mergeResults_characterization (kw sem : List SearchResult006) (limit : Nat) :
    mergeResults kw sem limit = (dedupByKey [] (allSorted kw sem)).take limit := by
  rw [mergeResults, mergeLoop_eq_dedup]
  simp

/-- C3 (amended): in a merged `Search` result list no two results share the
same `(guideId, sectionId)` pair, and the merged list consists of the first
occurrence of each dedup key `` `${guideId}-${sectionId}` `` of the
combined score-sorted list, truncated to `limit`.  (Because deduplication
uses the joined key rather than the pair itself, a result appearing in both
input lists is kept at most once, but may be dropped entirely when a
higher-ranked result with a different pair produces the same joined key,
or when it falls outside the first `limit` distinct keys.) -/
theorem mergeResults_dedup_law (kw sem : List SearchResult006) (limit : Nat) :
    (mergeResults kw sem limit).Pairwise
      (fun a b => (a.guideId, a.sectionId) ≠ (b.guideId, b.sectionId))
    ∧ mergeResults kw sem limit = (dedupByKey [] (allSorted kw sem)).take limit := by
  refine ⟨?_, mergeResults_characterization kw sem limit⟩
  rw [mergeResults_characterization]
  have hp := dedupByKey_pairwise (allSorted kw sem) []
  have hs : ((dedupByKey [] (allSorted kw sem)).take limit).Sublist
      (dedupByKey [] (allSorted kw sem)) := List.take_sublist _ _
  refine (hp.sublist hs).imp ?_
  intro a b hk hpair
  apply hk
  have h1 : a.guideId = b.guideId := congrArg Prod.fst hpair
  have h2 : a.sectionId = b.sectionId := congrArg Prod.snd hpair
  rw [resultKey, resultKey, h1, h2]

/-- C4 (confirmed): the merged result list is sorted descending by combined
score (`scoreGe a b` says `b`'s combined score is at most `a`'s), has at
most `limit` entries, and the combined score of a keyword-sourced result is
its native score times the fixed boost `1.1 = 11/10` while a
semantic-sourced result keeps its native score. -/
theorem mergeResults_sorted_and_bounded (kw sem : List SearchResult006) (limit : Nat) :
    List.Sorted scoreGe (mergeResults kw sem limit)
    ∧ (mergeResults kw sem limit).length ≤ limit
    ∧ (∀ r : SearchResult006,
        combinedScore (tagResult SearchSource.keyword r) = 11 / 10 * r.relevanceScore)
    ∧ (∀ r : SearchResult006,
        combinedScore (tagResult SearchSource.semantic r) = r.relevanceScore) := by
  refine ⟨?_, ?_, ?_, ?_⟩
  · rw [mergeResults_characterization]
    have hsorted : List.Sorted scoreGe (allSorted kw sem) :=
      List.sorted_insertionSort scoreGe _
    have hs : ((dedupByKey [] (allSorted kw sem)).take limit).Sublist
        (allSorted kw sem) :=
      (List.take_sublist _ _).trans (dedupByKey_sublist _ [])
    exact hsorted.sublist hs
  · rw [mergeResults_characterization]
    exact List.length_take_le _ _
  · intro r
    simp [combinedScore, tagResult, mul_comm]
  · intro r
    simp [combinedScore, tagResult]

/-- Shared metadata value for the concrete search results below. -/
def srMeta0 : SRMeta := ⟨cs "c", none, none, []⟩

/-- A keyword-only result whose joined dedup key is `"a-b-c"` via
`guideId = "a-b"`, `sectionId = "c"`. -/
def rTop : SearchResult006 := ⟨cs "a-b", cs "c", cs "t1", [], 9 / 10, srMeta0, []⟩

/-- A result with the same joined dedup key `"a-b-c"` but the different
pair `guideId = "a"`, `sectionId = "b-c"`. -/
def rDup : SearchResult006 := ⟨cs "a", cs "b-c", cs "t2", [], 1 / 2, srMeta0, []⟩

theorem combinedScore_tag_keyword (r : SearchResult006) :
    combinedScore (tagResult SearchSource.keyword r) = r.relevanceScore * (11 / 10) := by
  simp [combinedScore, tagResult]

theorem combinedScore_tag_semantic (r : SearchResult006) :
    combinedScore (tagResult SearchSource.semantic r) = r.relevanceScore := by
  simp [combinedScore, tagResult]

/-- C3 counterexample: `rDup` appears in both the keyword and the semantic
input lists, yet the merged list keeps it zero times — not exactly once —
because its joined key `"a-b-c"` collides with the key of the
higher-scored, different pair `("a-b", "c")`. -/
theorem c3_counterexample :
    rDup ∈ [rTop, rDup] ∧ rDup ∈ [rDup] ∧
    (mergeResults [rTop, rDup] [rDup] 5).countP
      (fun r => r.guideId == rDup.guideId && r.sectionId == rDup.sectionId) = 0 := by
  refine ⟨by simp, by simp, ?_⟩
  have hc1 : scoreGe (tagResult SearchSource.keyword rDup)
      (tagResult SearchSource.semantic rDup) := by
    rw [scoreGe, combinedScore_tag_semantic, combinedScore_tag_keyword]
    norm_num [rDup]
  have hc2 : scoreGe (tagResult SearchSource.keyword rTop)
      (tagResult SearchSource.keyword rDup) := by
    rw [scoreGe, combinedScore_tag_keyword, combinedScore_tag_keyword]
    norm_num [rTop, rDup]
  have hsorted : allSorted [rTop, rDup] [rDup] =
      [tagResult SearchSource.keyword rTop, tagResult SearchSource.keyword rDup,
        tagResult SearchSource.semantic rDup] := by
    simp only [allSorted, List.map, List.cons_append, List.nil_append,
      List.insertionSort, List.orderedInsert]
    rw [if_pos hc1]
    simp only [List.orderedInsert]
    rw [if_pos hc2]
  rw [mergeResults, hsorted]
  decide

/-! ## `sanitizeFtsQuery` (worker route source) -/

/-- The FTS5 operator characters quoted by the sanitizer:
the character class `[-*()"]`. -/
def opChars : List Char := ['-', '*', '(', ')', '"']

/-- The case-insensitive keyword test `/^(AND|OR|NOT)$/i.test(term)`. -/
def isBoolKw (t : List Char) : Bool :=
  upperStr t == cs "AND" || upperStr t == cs "OR" || upperStr t == cs "NOT"

/-- `/[-*()"]/.test(term) || /^(AND|OR|NOT)$/i.test(term)`. -/
def isSpecialTerm (t : List Char) : Bool :=
  t.any (fun c => c ∈ opChars) || isBoolKw t

/-- JS `term.replace(/"/g, '""')`. -/
def doubleQuotes : List Char → List Char
  | [] => []
  | c :: r => if c = '"' then '"' :: '"' :: doubleQuotes r else c :: doubleQuotes r

/-- The per-term mapping of `sanitizeFtsQuery`. -/
def quoteTerm (t : List Char) : List Char :=
  if isSpecialTerm t then '"' :: (doubleQuotes t ++ ['"']) else t

/-- `sanitizeFtsQuery`: split on `/\s+/`, quote special terms, re-join
with single spaces. -/
def sanitizeFtsQuery (q : List Char) : List Char :=
  List.intercalate [' '] ((splitWs q).map quoteTerm)

/-- The characters of an FTS5 query string that sit outside every
double-quoted region (doubled quotes inside a region keep the scanner
inside it). -/
def unquotedChars : Bool → List Char → List Char
  | _, [] => []
  | inQ, c :: r =>
    if c = '"' then unquotedChars (!inQ) r
    else if inQ then unquotedChars inQ r
    else c :: unquotedChars inQ r

theorem unquotedChars_append_clean (xs : List Char) :
    (∀ c ∈ xs, c ≠ '"') →
    ∀ ys, unquotedChars false (xs ++ ys) = xs ++ unquotedChars false ys := by
  induction xs with
  | nil => intro h ys; rfl
  | cons c r ih =>
    intro h ys
    have hc : c ≠ '"' := h c (by simp)
    have hstep : unquotedChars false (c :: (r ++ ys)) = c :: unquotedChars false (r ++ ys) := by
      simp [unquotedChars, hc]
    rw [List.cons_append, hstep, ih (fun d hd => h d (List.mem_cons_of_mem _ hd)) ys]
    rfl

theorem unquotedChars_in_quote (t : List Char) :
    ∀ rest, unquotedChars true (doubleQuotes t ++ ('"' :: rest)) = unquotedChars false rest := by
  induction t with
  | nil =>
    intro rest
    simp [doubleQuotes, unquotedChars]
  | cons c r ih =>
    intro rest
    by_cases hc : c = '"'
    · subst hc
      simp only [doubleQuotes, if_pos rfl, List.cons_append]
      simp only [unquotedChars, if_pos rfl, Bool.not_true, Bool.not_false]
      exact ih rest
    · simp only [doubleQuotes, if_neg hc, List.cons_append]
      simp only [unquotedChars, if_neg hc]
      simpa using ih rest

theorem unquotedChars_quoted (t : List Char) (rest : List Char) :
    unquotedChars false (('"' :: (doubleQuotes t ++ ['"'])) ++ rest) =
      unquotedChars false rest := by
  have h1 : unquotedChars false (('"' :: (doubleQuotes t ++ ['"'])) ++ rest) =
      unquotedChars true ((doubleQuotes t ++ ['"']) ++ rest) := by
    simp [unquotedChars]
  rw [h1, List.append_assoc]
  simpa using unquotedChars_in_quote t rest

theorem mem_nonspecial_no_quote (t : List Char) (hs : ¬ isSpecialTerm t) :
    ∀ c ∈ t, c ∉ opChars ∧ c ≠ '"' := by
  intro c hc
  have hop : c ∉ opChars := by
    intro hin
    apply hs
    simp only [isSpecialTerm, Bool.or_eq_true, List.any_eq_true]
    exact Or.inl ⟨c, hc, by simpa using hin⟩
  refine ⟨hop, ?_⟩
  intro hq
  apply hop
  subst hq
  simp [opChars]

theorem unquoted_quoteTerm_append (t : List Char) (rest : List Char) (c : Char)
    (hc : c ∈ unquotedChars false (quoteTerm t ++ rest)) :
    c ∉ opChars ∨ c ∈ unquotedChars false rest := by
  by_cases hs : isSpecialTerm t
  · rw [quoteTerm, if_pos hs, unquotedChars_quoted] at hc
    exact Or.inr hc
  · rw [quoteTerm, if_neg hs,
      unquotedChars_append_clean t (fun d hd => (mem_nonspecial_no_quote t hs d hd).2) rest]
      at hc
    rcases List.mem_append.mp hc with h1 | h1
    · exact Or.inl (mem_nonspecial_no_quote t hs c h1).1
    · exact Or.inr h1

theorem intercalate_cons₂ (sep x y : List Char) (l : List (List Char)) :
    List.intercalate sep (x :: y :: l) = x ++ sep ++ List.intercalate sep (y :: l) := by
  simp [List.intercalate, List.intersperse]

theorem sanitize_terms_no_ops (ts : List (List Char)) :
    ∀ c ∈ unquotedChars false (List.intercalate [' '] (ts.map quoteTerm)), c ∉ opChars := by
  match ts with
  | [] =>
    intro c hc
    simp [List.intercalate, unquotedChars] at hc
  | [t] =>
    intro c hc
    have hone : List.intercalate [' '] ([t].map quoteTerm) = quoteTerm t ++ [] := by
      simp [List.intercalate, List.intersperse]
    rw [hone] at hc
    rcases unquoted_quoteTerm_append t [] c hc with h | h
    · exact h
    · simp [unquotedChars] at h
  | t :: t2 :: tr =>
    intro c hc
    have ihr := sanitize_terms_no_ops (t2 :: tr)
    simp only [List.map_cons] at hc ihr
    rw [intercalate_cons₂, List.append_assoc] at hc
    rcases unquoted_quoteTerm_append t _ c hc with h | h
    · exact h
    · have hsp : (' ' : Char) ≠ '"' := by decide
      have : unquotedChars false
          ([' '] ++ List.intercalate [' '] (quoteTerm t2 :: List.map quoteTerm tr)) =
          [' '] ++
            unquotedChars false (List.intercalate [' '] (quoteTerm t2 :: List.map quoteTerm tr)) :=
        unquotedChars_append_clean [' '] (by intro d hd; simp at hd; subst hd; exact hsp) _
      rw [this] at h
      rcases List.mem_append.mp h with h2 | h2
      · simp at h2
        subst h2
        decide
      · exact ihr c h2

/-- C10 (confirmed): `sanitizeFtsQuery` splits its input on whitespace,
wraps every term containing one of `- * ( ) "` or equal (case-insensitively)
to `AND`/`OR`/`NOT` in double quotes with embedded quotes doubled, leaves
other terms unchanged, re-joins with single spaces, and consequently the
sanitized query contains no FTS5 operator character outside a
double-quoted region. -/
theorem sanitizeFtsQuery_spec (q : List Char) :
    sanitizeFtsQuery q =
      List.intercalate [' ']
        ((splitWs q).map (fun t =>
          if (t.any (fun c => c ∈ opChars) ||
              (upperStr t == cs "AND" || upperStr t == cs "OR" || upperStr t == cs "NOT"))
          then '"' :: (doubleQuotes t ++ ['"'])
          else t))
    ∧ ∀ c ∈ unquotedChars false (sanitizeFtsQuery q), c ∉ opChars := by
  constructor
  · rfl
  · intro c hc
    exact sanitize_terms_no_ops (splitWs q) c hc

/-! ## Storage model (R2 bucket, D1 tables, Vectorize index) -/

/-- A row of the D1 `guides` table (`type` is renamed `gtype`; `List Char`
values hold exactly what the code binds). -/
structure GuideRow where
  id : List Char
  title : List Char
  category : List Char
  subcategory : Option (List Char)
  gtype : List Char
  status : List Char
  version : List Char
  last_updated : List Char
  tags : List Char
  related_guides : Option (List Char)
  markdown_url : List Char
deriving DecidableEq

/-- A row of the D1 `sections` table. -/
structure SectionRow where
  id : List Char
  guide_id : List Char
  level : Nat
  title : List Char
  content : List Char
  start_line : Nat
  end_line : Nat
deriving DecidableEq

/-- A row of the FTS5 virtual table `guides_fts` (no primary key). -/
structure FtsRow where
  guide_id : List Char
  title : List Char
  content : List Char
  tags : List Char
deriving DecidableEq

/-- A row of the D1 `code_examples` table. -/
structure CodeRow where
  id : List Char
  guide_id : List Char
  section_id : List Char
  language : List Char
  code : List Char
  caption : Option (List Char)
deriving DecidableEq

/-- An entry of the Vectorize index (`values` is the raw text the index
embeds; the `metadata` fields are flattened). -/
structure VecRow where
  id : List Char
  namespaceV : List Char
  values : List Char
  metaText : List Char
  metaCategory : List Char
  metaSubcategory : Option (List Char)
  metaFramework : Option (List Char)
  metaLanguage : Option (List Char)
  metaTags : List (List Char)
deriving DecidableEq

/-- The combined external state: the R2 bucket as a key/value map, the D1
tables as row lists (with `guides` keyed by its primary key), and the
Vectorize entries. -/
structure Store where
  r2 : List Char → Option (List Char)
  guides : List Char → Option GuideRow
  sections : List SectionRow
  fts : List FtsRow
  codeExs : List CodeRow
  vectors : List VecRow

/-- The empty state of all three backends. -/
def emptyStore : Store :=
  ⟨fun _ => none, fun _ => none, [], [], [], []⟩

/-- Split a string at every occurrence of a single separator character
(JS `s.split(sep)` for a one-character separator). -/
def splitChar (sep : Char) : List Char → List (List Char)
  | [] => [[]]
  | c :: rest =>
    if c = sep then [] :: splitChar sep rest
    else
      match splitChar sep rest with
      | [] => [[c]]
      | h :: t => (c :: h) :: t

/-! ## `get_guide` tool handlers (worker route and MCP server sources) -/

/-- The response shapes of the worker `POST /tools/get_guide` route. -/
inductive GetGuideResp
  | badRequest
  | notFound
  | ok (guide : GuideRow) (sections : List SectionRow) (markdown : Option (List Char))
deriving DecidableEq

/-- Ordering relation used for the route's `ORDER BY start_line ASC`. -/
def byStartLine (a b : SectionRow) : Prop := a.start_line ≤ b.start_line

instance : DecidableRel byStartLine := fun a b => inferInstanceAs (Decidable (_ ≤ _))

/-- The worker `get_guide` route: 400 when `guideId` is falsy, 404 when the
guide row is absent, otherwise the guide row, its (optionally filtered)
sections ordered by `start_line`, and the R2 body — which is replaced by
`null` whenever a specific `sectionId` was requested. -/
def getGuideRoute (st : Store) (guideId : List Char) (sectionId : Option (List Char)) :
    GetGuideResp :=
  if guideId = [] then GetGuideResp.badRequest
  else
    match st.guides guideId with
    | none => GetGuideResp.notFound
    | some g =>
      let secs := st.sections.filter (fun s =>
        s.guide_id == guideId &&
          (match sectionId with
           | none => true
           | some sid => s.id == sid))
      let sorted := List.insertionSort byStartLine secs
      let md := st.r2 g.markdown_url
      GetGuideResp.ok g sorted
        (match sectionId with
         | some _ => none
         | none => md)

/-- The raw-body component of a route response (absent for errors). -/
def respMarkdown : GetGuideResp → Option (List Char)
  | GetGuideResp.ok _ _ md => md
  | _ => none

/-- A section view of the MCP server's `getGuide` (its `codeExamples` is
always the empty array in the source). -/
structure GuideSection006 where
  id : List Char
  title : List Char
  content : List Char
  codeExamples : List CodeRow
deriving DecidableEq

/-- The guide view returned by the MCP server's `GuideSearchService.getGuide`. -/
structure Guide006 where
  id : List Char
  title : List Char
  category : List Char
  sections : List GuideSection006
  relatedGuides : List (List Char)
  markdown : List Char
deriving DecidableEq

/-- `GuideSearchService.getGuide`: `null` when the guide row is absent,
otherwise metadata, the (optionally filtered) sections, and always the R2
body (empty string when the object is absent). -/
def getGuide006 (st : Store) (guideId : List Char) (sectionId : Option (List Char)) :
    Option Guide006 :=
  match st.guides guideId with
  | none => none
  | some m =>
    let secs := st.sections.filter (fun s =>
      s.guide_id == guideId &&
        (match sectionId with
         | none => true
         | some sid => s.id == sid))
    let md := match st.r2 m.markdown_url with
      | some t => t
      | none => []
    some
      { id := m.id
        title := m.title
        category := m.category
        sections := secs.map (fun s => ⟨s.id, s.title, s.content, []⟩)
        relatedGuides := match m.related_guides with
          | some rg => splitChar ',' rg
          | none => []
        markdown := md }

/-- C9 (amended): both implementations fail on a missing guide id — the
worker `get_guide` route answers `NotFoundError` for every non-empty guide
id absent from the store, and the MCP server's `getGuide` returns no guide
(its caller then raises `NotFoundError`) for every guide id absent from
the store — and whenever a specific `sectionId` is requested the worker
route omits the raw body from its response.  (The MCP-server variant of
`getGuide` always includes the raw body, see the counterexample.) -/
theorem getGuideRoute_notFound_and_omits_body :
    (∀ st gid sid, gid ≠ [] → st.guides gid = none →
      getGuideRoute st gid sid = GetGuideResp.notFound)
    ∧ (∀ st gid sid, st.guides gid = none → getGuide006 st gid sid = none)
    ∧ ∀ st gid sid, respMarkdown (getGuideRoute st gid (some sid)) = none := by
  refine ⟨?_, ?_, ?_⟩
  · intro st gid sid hne hmiss
    simp [getGuideRoute, hne, hmiss]
  · intro st gid sid hmiss
    simp [getGuide006, hmiss]
  · intro st gid sid
    by_cases hg : gid = []
    · simp [getGuideRoute, hg, respMarkdown]
    · cases h : st.guides gid <;> simp [getGuideRoute, hg, h, respMarkdown]

/-- A concrete guide row used in `get_guide` scenarios. -/
def gRow0 : GuideRow :=
  { id := cs "g", title := cs "T", category := cs "c", subcategory := none,
    gtype := cs "guide", status := cs "draft", version := cs "1.0",
    last_updated := cs "2025", tags := cs "[]", related_guides := none,
    markdown_url := cs "guides/g.md" }

/-- A concrete section row of guide `"g"`. -/
def secRow0 : SectionRow := ⟨cs "s", cs "g", 2, cs "S", cs "body text", 1, 3⟩

/-- A store holding guide `"g"`, one section `"s"` and the raw body
`"BODY"` under the guide's markdown key. -/
def store0 : Store :=
  { r2 := fun k => if k = cs "guides/g.md" then some (cs "BODY") else none
    guides := fun k => if k = cs "g" then some gRow0 else none
    sections := [secRow0]
    fts := []
    codeExs := []
    vectors := [] }

/-- Witness for the amended C9 theorem at concrete inputs: a missing id
yields `NotFoundError` from the worker route and no guide from the MCP
server in a populated store, and a section-specific request carries no raw
body. -/
theorem getGuideRoute_witness :
    cs "missing-id" ≠ [] ∧ store0.guides (cs "missing-id") = none ∧
    getGuideRoute store0 (cs "missing-id") none = GetGuideResp.notFound ∧
    getGuide006 store0 (cs "missing-id") none = none ∧
    respMarkdown (getGuideRoute store0 (cs "g") (some (cs "s"))) = none :=
  ⟨by decide, by decide,
    getGuideRoute_notFound_and_omits_body.1 store0 (cs "missing-id") none
      (by decide) (by decide),
    getGuideRoute_notFound_and_omits_body.2.1 store0 (cs "missing-id") none (by decide),
    getGuideRoute_notFound_and_omits_body.2.2 store0 (cs "g") (cs "s")⟩

/-- C9 counterexample: the MCP server's `getGuide` succeeds with a specific
`sectionId` requested yet still returns the full raw body (`"BODY"` here),
so the raw body is not omitted from that implementation's response. -/
theorem c9_counterexample :
    getGuide006 store0 (cs "g") (some (cs "s")) =
      some ⟨cs "g", cs "T", cs "c", [⟨cs "s", cs "S", cs "body text", []⟩], [], cs "BODY"⟩
    ∧ (getGuide006 store0 (cs "g") (some (cs "s"))).map Guide006.markdown ≠ some [] := by
  decide

/-! ## Guide parser data model (`guide-processor.ts`, `GuideParser`) -/

/-- The TS union `string | string[]` used for the guide category. -/
inductive CatV
  | one (c : List Char)
  | many (l : List (List Char))
deriving DecidableEq

/-- `GuideMetadata` of the guide parser (`type` renamed `gtype`). -/
structure GuideMetaD where
  id : List Char
  title : List Char
  category : CatV
  subcategory : Option (List Char)
  gtype : List Char
  status : List Char
  version : List Char
  last_updated : List Char
  languages : Option (List (List Char))
  frameworks : Option (List (List Char))
  platforms : Option (List (List Char))
  tags : List (List Char)
  related_guides : List (List Char)
deriving DecidableEq

/-- `CodeBlock`. -/
structure CodeBlockD where
  language : List Char
  code : List Char
  caption : Option (List Char)
deriving DecidableEq

/-- `Section` of the guide parser. -/
structure SectionD where
  id : List Char
  level : Nat
  title : List Char
  content : List Char
  codeBlocks : List CodeBlockD
  startLine : Nat
  endLine : Nat
deriving DecidableEq

/-- The `metadata` object attached to each chunk. -/
structure ChunkMetaD where
  category : List Char
  subcategory : Option (List Char)
  framework : Option (List Char)
  language : Option (List Char)
  tags : List (List Char)
deriving DecidableEq

/-- `Chunk`. -/
structure ChunkD where
  id : List Char
  guideId : List Char
  sectionId : List Char
  text : List Char
  tokens : Nat
  metadata : ChunkMetaD
deriving DecidableEq

/-- `estimateTokens`: `Math.ceil(text.length / 4)`. -/
def estimateTokens (t : List Char) : Nat := (t.length + 3) / 4

/-- `Array.isArray(category) ? category.join(', ') : category`. -/
def catJoined (c : CatV) : List Char :=
  match c with
  | CatV.many l => List.intercalate (cs ", ") l
  | CatV.one s => s

/-- `Array.isArray(category) ? category[0] : category` (an empty array's
`category[0]` is JS `undefined`, rendered here as the empty string). -/
def catFirst (c : CatV) : List Char :=
  match c with
  | CatV.many l => l.headD []
  | CatV.one s => s

/-- The framework names probed by `detectFramework`. -/
def fwNames : List (List Char) :=
  [cs "qwik", cs "react", cs "vue", cs "angular", cs "svelte"]

/-- The language names probed by `detectLanguage`. -/
def langNames : List (List Char) :=
  [cs "typescript", cs "javascript", cs "python", cs "go", cs "sql"]

/-- `detectFramework`: first listed framework mentioned in the content. -/
def detectFramework (content : List Char) : Option (List Char) :=
  fwNames.find? (fun fw => decide (fw <:+: lowerStr content))

/-- `detectLanguage`: first listed language mentioned in the content. -/
def detectLanguage (content : List Char) : Option (List Char) :=
  langNames.find? (fun l => decide (l <:+: lowerStr content))

/-- The chunk metadata built in `createChunks`/`splitLargeSection` (both
probe the whole section content). -/
def chunkMetaOf (m : GuideMetaD) (content : List Char) : ChunkMetaD :=
  { category := catFirst m.category
    subcategory := m.subcategory
    framework := detectFramework content
    language := detectLanguage content
    tags := m.tags }

/-- The candidate single-chunk text of `createChunks`:
`['# title', 'Category: …', 'Section: …', '', content].join('\n')`. -/
def singleChunkText (m : GuideMetaD) (s : SectionD) : List Char :=
  List.intercalate ['\n']
    [cs "# " ++ m.title,
     cs "Category: " ++ catJoined m.category,
     cs "Section: " ++ s.title,
     [],
     s.content]

/-- The single chunk emitted when the candidate fits the token ceiling. -/
def singleChunk (m : GuideMetaD) (s : SectionD) : ChunkD :=
  { id := m.id ++ '-' :: s.id
    guideId := m.id
    sectionId := s.id
    text := singleChunkText m s
    tokens := estimateTokens (singleChunkText m s)
    metadata := chunkMetaOf m s.content }

/-- The initial `currentChunk` array of `splitLargeSection`. -/
def splitHdr (m : GuideMetaD) (s : SectionD) : List (List Char) :=
  [cs "# " ++ m.title, cs "Section: " ++ s.title, []]

/-- The continuation `currentChunk` header after a chunk is closed. -/
def splitHdrCont (m : GuideMetaD) (s : SectionD) : List (List Char) :=
  [cs "# " ++ m.title, cs "Section: " ++ s.title ++ cs " (continued)", []]

/-- The chunk pushed by `splitLargeSection` from the current array `cur`
(`text` is `cur.join('\n\n')`). -/
def splitChunkOf (m : GuideMetaD) (s : SectionD) (idx : Nat) (cur : List (List Char)) :
    ChunkD :=
  { id := m.id ++ '-' :: s.id ++ '-' :: natChars idx
    guideId := m.id
    sectionId := s.id
    text := joinNl2 cur
    tokens := estimateTokens (joinNl2 cur)
    metadata := chunkMetaOf m s.content }

/-- The paragraph loop of `splitLargeSection`: close the current chunk
whenever adding the next paragraph would exceed 1000 estimated tokens, and
emit the final chunk when it holds more than the three header lines. -/
def splitLargeSectionAux (m : GuideMetaD) (s : SectionD) :
    List (List Char) → Nat → List (List Char) → List ChunkD
  | cur, idx, [] => if cur.length > 3 then [splitChunkOf m s idx cur] else []
  | cur, idx, p :: ps =>
    if estimateTokens (joinNl2 (cur ++ [p])) > 1000 then
      splitChunkOf m s idx cur ::
        splitLargeSectionAux m s (splitHdrCont m s ++ [p]) (idx + 1) ps
    else
      splitLargeSectionAux m s (cur ++ [p]) idx ps

/-- `GuideParser.splitLargeSection`. -/
def splitLargeSection (m : GuideMetaD) (s : SectionD) : List ChunkD :=
  splitLargeSectionAux m s (splitHdr m s) 0 (splitNl2 s.content)

/-- The per-section body of `createChunks` (after the short-section skip):
one chunk when the candidate fits 1000 tokens, else the paragraph split. -/
def createChunksOne (m : GuideMetaD) (s : SectionD) : List ChunkD :=
  if estimateTokens (singleChunkText m s) > 1000 then splitLargeSection m s
  else [singleChunk m s]

/-- `GuideParser.createChunks`: sections with fewer than 100 characters of
content are skipped entirely. -/
def createChunks (m : GuideMetaD) (ss : List SectionD) : List ChunkD :=
  (ss.map (fun s => if s.content.length < 100 then [] else createChunksOne m s)).flatten

/-- The same recursion as `splitLargeSectionAux`, additionally pairing each
emitted chunk with its underlying paragraph group `cur.drop 3` (the
elements of the current array after the three header lines). -/
def splitPairsAux (m : GuideMetaD) (s : SectionD) :
    List (List Char) → Nat → List (List Char) → List (ChunkD × List (List Char))
  | cur, idx, [] =>
    if cur.length > 3 then [(splitChunkOf m s idx cur, cur.drop 3)] else []
  | cur, idx, p :: ps =>
    if estimateTokens (joinNl2 (cur ++ [p])) > 1000 then
      (splitChunkOf m s idx cur, cur.drop 3) ::
        splitPairsAux m s (splitHdrCont m s ++ [p]) (idx + 1) ps
    else
      splitPairsAux m s (cur ++ [p]) idx ps

/-- `splitLargeSection` with paragraph groups. -/
def splitLargeSectionWithParas (m : GuideMetaD) (s : SectionD) :
    List (ChunkD × List (List Char)) :=
  splitPairsAux m s (splitHdr m s) 0 (splitNl2 s.content)

/-- The per-section chunk list with paragraph groups (a single fitting
chunk carries the whole section content as its one group). -/
def createChunksOneWithParas (m : GuideMetaD) (s : SectionD) :
    List (ChunkD × List (List Char)) :=
  if estimateTokens (singleChunkText m s) > 1000 then splitLargeSectionWithParas m s
  else [(singleChunk m s, [s.content])]

/-! ### Chunker lemmas -/

theorem intercalate_append_ne (sep : List Char) (xs ys : List (List Char))
    (hx : xs ≠ []) (hy : ys ≠ []) :
    List.intercalate sep (xs ++ ys) =
      List.intercalate sep xs ++ sep ++ List.intercalate sep ys := by
  induction xs with
  | nil => cases hx rfl
  | cons x xr ih =>
    cases xr with
    | nil =>
      cases ys with
      | nil => cases hy rfl
      | cons y yr =>
        have h1 : ([x] ++ (y :: yr)) = x :: y :: yr := by simp
        rw [h1, intercalate_cons₂]
        simp [List.intercalate, List.intersperse]
    | cons x2 xrr =>
      have h2 : ((x :: x2 :: xrr) ++ ys) = x :: ((x2 :: xrr) ++ ys) := by simp
      have h3 : ((x2 :: xrr) ++ ys) = x2 :: (xrr ++ ys) := by simp
      rw [h2, h3, intercalate_cons₂, ← h3, ih (by simp), intercalate_cons₂]
      simp [List.append_assoc]

theorem joinNl2_decomp (cur : List (List Char)) :
    ∃ h, joinNl2 cur = h ++ joinNl2 (cur.drop 3) := by
  cases hg : cur.drop 3 with
  | nil =>
    refine ⟨joinNl2 cur, ?_⟩
    simp [joinNl2, List.intercalate]
  | cons g gr =>
    have hsplit : cur.take 3 ++ cur.drop 3 = cur := List.take_append_drop 3 cur
    have htk : cur.take 3 ≠ [] := by
      cases cur with
      | nil => simp at hg
      | cons a t => simp [List.take]
    refine ⟨joinNl2 (cur.take 3) ++ nl2, ?_⟩
    conv_lhs => rw [← hsplit]
    rw [joinNl2, joinNl2, joinNl2,
      intercalate_append_ne nl2 _ _ htk (by rw [hg]; simp)]
    simp [List.append_assoc, hg]

theorem splitPairsAux_fst (m : GuideMetaD) (s : SectionD) :
    ∀ ps cur idx,
      (splitPairsAux m s cur idx ps).map Prod.fst = splitLargeSectionAux m s cur idx ps := by
  intro ps
  induction ps with
  | nil =>
    intro cur idx
    simp only [splitPairsAux, splitLargeSectionAux]
    split <;> simp
  | cons p pr ih =>
    intro cur idx
    simp only [splitPairsAux, splitLargeSectionAux]
    split
    · simp [ih]
    · exact ih _ _

theorem splitPairsAux_flatten (m : GuideMetaD) (s : SectionD) :
    ∀ ps cur idx, 3 ≤ cur.length →
      ((splitPairsAux m s cur idx ps).map Prod.snd).flatten = cur.drop 3 ++ ps := by
  intro ps
  induction ps with
  | nil =>
    intro cur idx hlen
    simp only [splitPairsAux]
    split
    · simp
    · rename_i hnot
      have h3 : cur.length = 3 := by omega
      simp [List.drop_eq_nil_of_le (le_of_eq h3)]
  | cons p pr ih =>
    intro cur idx hlen
    simp only [splitPairsAux]
    split
    · simp only [List.map_cons, List.flatten_cons]
      rw [ih _ _ (by simp [splitHdrCont])]
      simp [splitHdrCont]
    · rw [ih _ _ (by simp; omega)]
      rw [List.drop_append_of_le_length hlen]
      simp

theorem splitPairsAux_bound (m : GuideMetaD) (s : SectionD) :
    ∀ ps cur idx, (cur.length ≤ 4 ∨ estimateTokens (joinNl2 cur) ≤ 1000) →
      ∀ pr ∈ splitPairsAux m s cur idx ps,
        pr.1.tokens ≤ 1000 ∨ pr.2.length ≤ 1 := by
  intro ps
  induction ps with
  | nil =>
    intro cur idx hinv pr hpr
    simp only [splitPairsAux] at hpr
    split at hpr
    · simp only [List.mem_singleton] at hpr
      subst hpr
      rcases hinv with h | h
      · right
        simp only [List.length_drop]
        omega
      · left
        simpa [splitChunkOf] using h
    · simp at hpr
  | cons p pr0 ih =>
    intro cur idx hinv c hc
    simp only [splitPairsAux] at hc
    split at hc
    · rcases List.mem_cons.mp hc with h | h
      · subst h
        rcases hinv with h2 | h2
        · right
          simp only [List.length_drop]
          omega
        · left
          simpa [splitChunkOf] using h2
      · exact ih _ _ (Or.inl (by simp [splitHdrCont])) c h
    · rename_i hno
      exact ih _ _ (Or.inr (Nat.le_of_not_lt hno)) c hc

theorem splitPairsAux_text (m : GuideMetaD) (s : SectionD) :
    ∀ ps cur idx, ∀ pr ∈ splitPairsAux m s cur idx ps,
      ∃ h, pr.1.text = h ++ joinNl2 pr.2 := by
  intro ps
  induction ps with
  | nil =>
    intro cur idx pr hpr
    simp only [splitPairsAux] at hpr
    split at hpr
    · simp only [List.mem_singleton] at hpr
      subst hpr
      simpa [splitChunkOf] using joinNl2_decomp cur
    · simp at hpr
  | cons p pr0 ih =>
    intro cur idx pr hpr
    simp only [splitPairsAux] at hpr
    split at hpr
    · rcases List.mem_cons.mp hpr with h | h
      · subst h
        simpa [splitChunkOf] using joinNl2_decomp cur
      · exact ih _ _ pr h
    · exact ih _ _ pr hpr

/-- C7 (amended): for any section, the chunks produced from it carry
underlying paragraph groups whose ordered concatenation — with one blank
line restored between consecutive paragraphs — reproduces the section
content exactly once, and each chunk's text is its synthesized context
header followed by its group; however, a section with fewer than 100
characters of content is skipped and produces no chunks at all, and the
blank-line separators between adjacent chunks are not themselves part of
any chunk's text. -/
theorem createChunks_paragraph_coverage (m : GuideMetaD) (s : SectionD) :
    createChunks m [s] =
      (if s.content.length < 100 then []
       else (createChunksOneWithParas m s).map Prod.fst)
    ∧ joinNl2 ((createChunksOneWithParas m s).map Prod.snd).flatten = s.content
    ∧ ∀ pr ∈ createChunksOneWithParas m s, ∃ h, pr.1.text = h ++ joinNl2 pr.2 := by
  refine ⟨?_, ?_, ?_⟩
  · by_cases h100 : s.content.length < 100
    · simp [createChunks, h100]
    · by_cases hbig : estimateTokens (singleChunkText m s) > 1000
      · simp [createChunks, h100, createChunksOne, createChunksOneWithParas, hbig,
          splitLargeSection, splitLargeSectionWithParas, splitPairsAux_fst]
      · simp [createChunks, h100, createChunksOne, createChunksOneWithParas, hbig]
  · rw [createChunksOneWithParas]
    by_cases hbig : estimateTokens (singleChunkText m s) > 1000
    · rw [if_pos hbig, splitLargeSectionWithParas,
        splitPairsAux_flatten m s _ _ _ (by simp [splitHdr])]
      simp [splitHdr]
      exact joinNl2_splitNl2 s.content
    · rw [if_neg hbig]
      simp [joinNl2, List.intercalate]
  · intro pr hpr
    rw [createChunksOneWithParas] at hpr
    split at hpr
    · exact splitPairsAux_text m s _ _ _ pr hpr
    · simp only [List.mem_singleton] at hpr
      subst hpr
      refine ⟨cs "# " ++ m.title ++ '\n' ::
        (cs "Category: " ++ catJoined m.category ++ '\n' ::
          (cs "Section: " ++ s.title ++ ['\n', '\n'])), ?_⟩
      simp [singleChunk, singleChunkText, joinNl2, List.intercalate, List.intersperse, nl2]

/-- A minimal guide metadata value used by the chunker scenarios. -/
def m7 : GuideMetaD :=
  { id := cs "g", title := cs "T", category := CatV.one (cs "C"), subcategory := none,
    gtype := cs "guide", status := cs "draft", version := cs "1.0",
    last_updated := cs "2025", languages := none, frameworks := none,
    platforms := none, tags := [], related_guides := [] }

/-- A section whose content is shorter than 100 characters. -/
def s7 : SectionD := ⟨cs "s", 2, cs "S", cs "short content", [], 1, 2⟩

/-- C7 counterexample: a section with non-empty content below the
100-character threshold yields no chunks at all, so no concatenation of
chunk contents can reproduce the section content. -/
theorem c7_counterexample : createChunks m7 [s7] = [] ∧ s7.content ≠ [] := by
  decide

/-- C5 (amended): every chunk produced by `createChunks` either has a token
estimate within the 1000-token ceiling or is a chunk of the paragraph
split holding at most one paragraph beneath its synthesized context header
— the header together with a single paragraph (or the header alone) may
exceed the ceiling even when the paragraph alone does not. -/
theorem createChunks_token_bound (m : GuideMetaD) (ss : List SectionD) (c : ChunkD)
    (hc : c ∈ createChunks m ss) :
    c.tokens ≤ 1000 ∨
      ∃ s g, s ∈ ss ∧ (c, g) ∈ splitLargeSectionWithParas m s ∧ g.length ≤ 1 := by
  rw [createChunks, List.mem_flatten] at hc
  obtain ⟨l, hl, hcl⟩ := hc
  rw [List.mem_map] at hl
  obtain ⟨s, hs, rfl⟩ := hl
  by_cases h100 : s.content.length < 100
  · rw [if_pos h100] at hcl
    simp at hcl
  · rw [if_neg h100, createChunksOne] at hcl
    by_cases hbig : estimateTokens (singleChunkText m s) > 1000
    · rw [if_pos hbig, splitLargeSection, ← splitPairsAux_fst] at hcl
      rw [List.mem_map] at hcl
      obtain ⟨pr, hpr, rfl⟩ := hcl
      have hbound := splitPairsAux_bound m s (splitNl2 s.content) (splitHdr m s) 0
        (Or.inl (by simp [splitHdr])) pr hpr
      rcases hbound with h | h
      · exact Or.inl h
      · exact Or.inr ⟨s, pr.2, hs, by simpa [splitLargeSectionWithParas] using hpr, h⟩
    · rw [if_neg hbig] at hcl
      simp only [List.mem_singleton] at hcl
      subst hcl
      exact Or.inl (by simpa [singleChunk] using Nat.le_of_not_lt hbig)

/-- A section whose single 3990-character paragraph fits the token ceiling
on its own but overflows it once the context header is prepended. -/
def s5 : SectionD := ⟨cs "s", 2, cs "S", List.replicate 3990 'a', [], 1, 2⟩

/-- A default chunk used only to index into concrete chunk lists. -/
def defaultChunkD : ChunkD := ⟨[], [], [], [], 0, ⟨[], none, none, none, []⟩⟩

theorem intercalate4 (sep a b c d : List Char) :
    List.intercalate sep [a, b, c, d] = a ++ sep ++ (b ++ sep ++ (c ++ sep ++ d)) := by
  simp [List.intercalate, List.intersperse, List.append_assoc]

theorem intercalate5 (sep a b c d e : List Char) :
    List.intercalate sep [a, b, c, d, e] =
      a ++ sep ++ (b ++ sep ++ (c ++ sep ++ (d ++ sep ++ e))) := by
  simp [List.intercalate, List.intersperse, List.append_assoc]

theorem s5_content_eq : s5.content = List.replicate 3990 'a' := rfl

theorem s5_content_len : s5.content.length = 3990 := by
  rw [s5_content_eq, List.length_replicate]

theorem s5_no_nl : ∀ ch ∈ s5.content, ch ≠ '\n' := by
  intro ch hch
  rw [s5_content_eq] at hch
  have ha : ch = 'a' := List.eq_of_mem_replicate hch
  subst ha
  decide

theorem s5_split : splitNl2 s5.content = [s5.content] :=
  splitNl2_no_nl _ s5_no_nl

theorem s5_single_len : (singleChunkText m7 s5).length = 4018 := by
  rw [singleChunkText, intercalate5]
  have e1 : (cs "# " ++ m7.title).length = 3 := by decide
  have e2 : (cs "Category: " ++ catJoined m7.category).length = 11 := by decide
  have e3 : (cs "Section: " ++ s5.title).length = 10 := by decide
  simp only [List.length_append, e1, e2, e3, s5_content_len, List.length_nil,
    List.length_cons, List.length_singleton]

theorem s5_single_big : estimateTokens (singleChunkText m7 s5) > 1000 := by
  rw [estimateTokens, s5_single_len]
  decide

theorem s5_test_len : (joinNl2 (splitHdr m7 s5 ++ [s5.content])).length = 4009 := by
  have hs : splitHdr m7 s5 ++ [s5.content] =
      [cs "# " ++ m7.title, cs "Section: " ++ s5.title, [], s5.content] := by
    simp [splitHdr]
  rw [hs, joinNl2, intercalate4]
  have e1 : (cs "# " ++ m7.title).length = 3 := by decide
  have e3 : (cs "Section: " ++ s5.title).length = 10 := by decide
  simp only [List.length_append, e1, e3, s5_content_len, List.length_nil, nl2,
    List.length_cons, List.length_singleton]

theorem s5_test_big : estimateTokens (joinNl2 (splitHdr m7 s5 ++ [s5.content])) > 1000 := by
  rw [estimateTokens, s5_test_len]
  decide

theorem s5_cont_len : (joinNl2 (splitHdrCont m7 s5 ++ [s5.content])).length = 4021 := by
  have hs : splitHdrCont m7 s5 ++ [s5.content] =
      [cs "# " ++ m7.title, cs "Section: " ++ s5.title ++ cs " (continued)", [],
        s5.content] := by
    simp [splitHdrCont]
  rw [hs, joinNl2, intercalate4]
  have e1 : (cs "# " ++ m7.title).length = 3 := by decide
  have e2 : (cs "Section: " ++ s5.title ++ cs " (continued)").length = 22 := by decide
  simp only [List.length_append, e1, e2, s5_content_len, List.length_nil, nl2,
    List.length_cons, List.length_singleton]

theorem s5_chunks : createChunks m7 [s5] =
    [splitChunkOf m7 s5 0 (splitHdr m7 s5),
      splitChunkOf m7 s5 1 (splitHdrCont m7 s5 ++ [s5.content])] := by
  rw [createChunks]
  simp only [List.map, List.flatten_cons, List.flatten_nil, List.append_nil]
  rw [if_neg (by rw [s5_content_len]; omega)]
  rw [createChunksOne, if_pos s5_single_big, splitLargeSection, s5_split]
  simp only [splitLargeSectionAux]
  rw [if_pos s5_test_big]
  rw [if_pos (by simp [splitHdrCont])]

/-- C5 counterexample: the section `s5` has exactly one paragraph, whose
own token estimate is within the ceiling, yet `createChunks` emits a chunk
(the second one) whose token estimate exceeds 1000 — so an oversized chunk
exists whose single paragraph does not alone exceed the ceiling. -/
theorem c5_counterexample :
    (createChunks m7 [s5]).getD 1 defaultChunkD ∈ createChunks m7 [s5]
    ∧ 1000 < ((createChunks m7 [s5]).getD 1 defaultChunkD).tokens
    ∧ splitNl2 s5.content = [s5.content]
    ∧ estimateTokens s5.content ≤ 1000 := by
  refine ⟨?_, ?_, s5_split, ?_⟩
  · rw [s5_chunks]
    simp [List.getD]
  · rw [s5_chunks]
    have ht : (splitChunkOf m7 s5 1 (splitHdrCont m7 s5 ++ [s5.content])).tokens =
        estimateTokens (joinNl2 (splitHdrCont m7 s5 ++ [s5.content])) := by
      simp [splitChunkOf]
    have hsel : [splitChunkOf m7 s5 0 (splitHdr m7 s5),
        splitChunkOf m7 s5 1 (splitHdrCont m7 s5 ++ [s5.content])].getD 1 defaultChunkD =
        splitChunkOf m7 s5 1 (splitHdrCont m7 s5 ++ [s5.content]) := rfl
    rw [hsel, ht, estimateTokens, s5_cont_len]
    decide
  · rw [estimateTokens, s5_content_len]
    decide

/-- A fitting section above the 100-character threshold used to witness the
amended C5 theorem. -/
def w5s : SectionD := ⟨cs "s", 2, cs "S", List.replicate 150 'b', [], 1, 2⟩

/-- Witness for the amended C5 theorem: a concrete chunk of a concrete
section satisfies the membership hypothesis and the token disjunction. -/
theorem createChunks_token_bound_witness :
    (createChunks m7 [w5s]).getD 0 defaultChunkD ∈ createChunks m7 [w5s]
    ∧ (((createChunks m7 [w5s]).getD 0 defaultChunkD).tokens ≤ 1000 ∨
        ∃ s g, s ∈ [w5s] ∧
          ((createChunks m7 [w5s]).getD 0 defaultChunkD, g) ∈ splitLargeSectionWithParas m7 s ∧
          g.length ≤ 1) :=
  ⟨by decide, createChunks_token_bound m7 [w5s] _ (by decide)⟩

/-! ## Section splitter (`guide-processor/index.ts`, `parseMarkdown`) -/

/-- A section produced by `parseMarkdown` (1-based line numbers). -/
structure SectionP where
  id : List Char
  level : Nat
  title : List Char
  content : List Char
  start_line : Nat
  end_line : Nat
deriving DecidableEq

/-- The heading test `line.match(/^(#{1,6})\s+(.+)$/)`: a run of one to six
`#` followed by whitespace and a non-empty remainder.  When everything
after the whitespace is empty, the regex backtracks and `.` consumes the
run's last whitespace character, so a line such as `"#  "` is a heading
whose title is one whitespace character. -/
def isHeader (line : List Char) : Option (Nat × List Char) :=
  let n := (line.takeWhile (fun c => c = '#')).length
  let rest := line.drop n
  if 1 ≤ n ∧ n ≤ 6 then
    let w := rest.takeWhile isWsJs
    let r := rest.drop w.length
    if w = [] then none
    else if r ≠ [] then some (n, r)
    else if 2 ≤ w.length then some (n, w.drop (w.length - 1))
    else none
  else none

/-- The id `` `section-${k}` `` assigned to the `k`-th section. -/
def secId (k : Nat) : List Char := cs "section-" ++ natChars k

/-- The line loop of `parseMarkdown`: `n` is the number of lines already
consumed (`lineNum` before the increment), `cur` the currently open
section, `acc` the closed sections in order. -/
def parseMdAux : List (List Char) → Nat → Option SectionP → List SectionP → List SectionP
  | [], n, cur, acc =>
    match cur with
    | none => acc
    | some c => acc ++ [{ c with end_line := n }]
  | line :: rest, n, cur, acc =>
    match isHeader line with
    | some (lvl, title) =>
      let acc2 := match cur with
        | none => acc
        | some c => acc ++ [{ c with end_line := n }]
      parseMdAux rest (n + 1)
        (some { id := secId (acc2.length + 1), level := lvl, title := title,
                content := [], start_line := n + 1, end_line := n + 1 }) acc2
    | none =>
      match cur with
      | some c =>
        parseMdAux rest (n + 1)
          (some { c with content := c.content ++ line ++ ['\n'] }) acc
      | none => parseMdAux rest (n + 1) none acc

/-- `parseMarkdown`. -/
def parseMarkdown (md : List Char) : List SectionP :=
  parseMdAux (splitLines md) 0 none []

theorem parseMdAux_some_spec :
    ∀ (lines : List (List Char)) (n : Nat) (c : SectionP) (acc : List SectionP)
      (hl : List Char),
      isHeader hl = some (c.level, c.title) →
      c.start_line ≤ n →
      ∃ (fst : SectionP) (outr : List SectionP) (hls : List (List Char)),
        parseMdAux lines n (some c) acc = acc ++ (fst :: outr)
        ∧ hls.length = (fst :: outr).length
        ∧ (∀ pr ∈ hls.zip (fst :: outr), isHeader pr.1 = some (pr.2.level, pr.2.title))
        ∧ ((hls.zip (fst :: outr)).map (fun pr => pr.1 ++ '\n' :: pr.2.content)).flatten
            = hl ++ '\n' :: (c.content ++ (lines.map (fun l => l ++ ['\n'])).flatten)
        ∧ List.Chain' (fun a b => a.end_line + 1 = b.start_line) (fst :: outr)
        ∧ (∀ s ∈ fst :: outr, s.start_line ≤ s.end_line)
        ∧ fst.start_line = c.start_line := by
  intro lines
  induction lines with
  | nil =>
    intro n c acc hl hhl hstart
    refine ⟨{ c with end_line := n }, [], [hl], rfl, rfl, ?_, ?_, ?_, ?_, rfl⟩
    · intro pr hpr
      simp only [List.zip, List.zipWith, List.mem_singleton] at hpr
      subst hpr
      simpa using hhl
    · simp [List.zip, List.zipWith]
    · simp
    · intro s hs
      simp only [List.mem_singleton] at hs
      subst hs
      simpa using hstart
  | cons line rest ih =>
    intro n c acc hl hhl hstart
    cases hhd : isHeader line with
    | none =>
      have ih2 := ih (n + 1) { c with content := c.content ++ line ++ ['\n'] } acc hl
        (by simpa using hhl) (by simpa using Nat.le_succ_of_le hstart)
      obtain ⟨fst, outr, hls, he, hlen, hhdr, hflat, hch, hse, hfs⟩ := ih2
      refine ⟨fst, outr, hls, ?_, hlen, hhdr, ?_, hch, hse, by simpa using hfs⟩
      · simp only [parseMdAux, hhd]
        exact he
      · rw [hflat]
        simp [List.append_assoc]
    | some lt =>
      obtain ⟨lvl, t⟩ := lt
      have ih2 := ih (n + 1)
        { id := secId ((acc ++ [{ c with end_line := n }]).length + 1), level := lvl,
          title := t, content := [], start_line := n + 1, end_line := n + 1 }
        (acc ++ [{ c with end_line := n }]) line (by simpa using hhd) (by simp)
      obtain ⟨fst, outr, hls, he, hlen, hhdr, hflat, hch, hse, hfs⟩ := ih2
      refine ⟨{ c with end_line := n }, fst :: outr, hl :: hls, ?_, by simpa using hlen,
        ?_, ?_, ?_, ?_, rfl⟩
      · simp only [parseMdAux, hhd]
        rw [he]
        simp
      · intro pr hpr
        rw [List.zip_cons_cons] at hpr
        rcases List.mem_cons.mp hpr with h | h
        · subst h
          simpa using hhl
        · exact hhdr pr h
      · rw [List.zip_cons_cons, List.map_cons, List.flatten_cons, hflat]
        simp [List.append_assoc]
      · rw [List.chain'_cons]
        refine ⟨?_, hch⟩
        rw [hfs]
      · intro s hs
        rcases List.mem_cons.mp hs with h | h
        · subst h
          simpa using hstart
        · exact hse s h

theorem parseMdAux_none_spec :
    ∀ (lines : List (List Char)) (n : Nat),
      ∃ hls : List (List Char),
        hls.length = (parseMdAux lines n none []).length
        ∧ (∀ pr ∈ hls.zip (parseMdAux lines n none []),
            isHeader pr.1 = some (pr.2.level, pr.2.title))
        ∧ ((hls.zip (parseMdAux lines n none [])).map
            (fun pr => pr.1 ++ '\n' :: pr.2.content)).flatten
            = ((lines.dropWhile (fun l => (isHeader l).isNone)).map
                (fun l => l ++ ['\n'])).flatten
        ∧ List.Chain' (fun a b => a.end_line + 1 = b.start_line)
            (parseMdAux lines n none [])
        ∧ ∀ s ∈ parseMdAux lines n none [], s.start_line ≤ s.end_line := by
  intro lines
  induction lines with
  | nil =>
    intro n
    exact ⟨[], rfl, by simp, by simp [List.zip, List.zipWith], by simp [parseMdAux],
      by intro s hs; simp [parseMdAux] at hs⟩
  | cons line rest ih =>
    intro n
    cases hhd : isHeader line with
    | none =>
      have heq : parseMdAux (line :: rest) n none [] = parseMdAux rest (n + 1) none [] := by
        simp only [parseMdAux, hhd]
      obtain ⟨hls, h1, h2, h3, h4, h5⟩ := ih (n + 1)
      refine ⟨hls, ?_, ?_, ?_, ?_, ?_⟩ <;> rw [heq]
      · exact h1
      · exact h2
      · rw [h3]
        have hdrop : (line :: rest).dropWhile (fun l => (isHeader l).isNone) =
            rest.dropWhile (fun l => (isHeader l).isNone) := by
          rw [List.dropWhile_cons_of_pos (by simp [hhd])]
        rw [hdrop]
      · exact h4
      · exact h5
    | some lt =>
      obtain ⟨lvl, t⟩ := lt
      have heq : parseMdAux (line :: rest) n none [] =
          parseMdAux rest (n + 1)
            (some { id := secId 1, level := lvl, title := t, content := [],
                    start_line := n + 1, end_line := n + 1 }) [] := by
        simp only [parseMdAux, hhd]
        rfl
      obtain ⟨fst, outr, hls, he, hlen, hhdr, hflat, hch, hse, hfs⟩ :=
        parseMdAux_some_spec rest (n + 1)
          { id := secId 1, level := lvl, title := t, content := [],
            start_line := n + 1, end_line := n + 1 } [] line (by simpa using hhd) (by simp)
      have heq2 : parseMdAux (line :: rest) n none [] = fst :: outr := by
        rw [heq, he]
        simp
      refine ⟨hls, ?_, ?_, ?_, ?_, ?_⟩ <;> rw [heq2]
      · exact hlen
      · exact hhdr
      · rw [hflat]
        have hdrop : (line :: rest).dropWhile (fun l => (isHeader l).isNone) =
            line :: rest := by
          rw [List.dropWhile_cons_of_neg (by simp [hhd])]
        rw [hdrop]
        simp
      · exact hch
      · exact hse

/-- C6 (amended): for every body, the sections produced by `parseMarkdown`
tile the body from its first heading line on: there are heading lines (each
parsing to exactly its section's level and title) such that concatenating,
per section, the heading line, a newline and the section content reproduces
every line from the first heading line onward, each terminated by a
newline — i.e. the original body suffix plus one trailing newline, rather
than byte-for-byte; consecutive sections satisfy
`end_line + 1 = start_line` (hence they are ordered by `start_line` and
non-overlapping), and every section has `start_line ≤ end_line`. -/
theorem parseMarkdown_coverage (md : List Char) :
    ∃ hls : List (List Char),
      hls.length = (parseMarkdown md).length
      ∧ (∀ pr ∈ hls.zip (parseMarkdown md), isHeader pr.1 = some (pr.2.level, pr.2.title))
      ∧ ((hls.zip (parseMarkdown md)).map (fun pr => pr.1 ++ '\n' :: pr.2.content)).flatten
          = (((splitLines md).dropWhile (fun l => (isHeader l).isNone)).map
              (fun l => l ++ ['\n'])).flatten
      ∧ List.Chain' (fun a b => a.end_line + 1 = b.start_line) (parseMarkdown md)
      ∧ ∀ s ∈ parseMarkdown md, s.start_line ≤ s.end_line := by
  exact parseMdAux_none_spec (splitLines md) 0

/-- The canonical heading line of a section: its level in `#` marks, one
space, then its title (exactly the heading line of the counterexample
document below). -/
def headingRender (s : SectionP) : List Char :=
  List.replicate s.level '#' ++ ' ' :: s.title

/-- C6 counterexample: for the two-line body `"# A\nx"` (no metadata
header, no text before the first heading) the section splitter stores
`"x\n"` as content, so concatenating the heading line and the contents
yields `"# A\nx\n"` — one byte more than the original body: the
reconstruction is not byte-for-byte. -/
theorem c6_counterexample :
    parseMarkdown (cs "# A\nx") =
      [⟨cs "section-1", 1, cs "A", 'x' :: ['\n'], 1, 2⟩]
    ∧ ((parseMarkdown (cs "# A\nx")).map
        (fun s => headingRender s ++ '\n' :: s.content)).flatten ≠ cs "# A\nx" := by
  decide

/-! ## Document processing pipeline (`guide-processor/index.ts`) -/

/-- An input file, `{ name, content }`. -/
structure FileG where
  name : List Char
  content : List Char
deriving DecidableEq

/-- The raw result of `YAML.parse` on a frontmatter block, with every field
optional (`Partial<GuideMetadata>`). -/
structure YamlMeta where
  title : Option (List Char)
  category : Option CatV
  subcategory : Option (List Char)
  gtype : Option (List Char)
  status : Option (List Char)
  version : Option (List Char)
  last_updated : Option (List Char)
  tags : Option (List (List Char))
  related_guides : Option (List (List Char))
deriving DecidableEq

/-- The empty metadata object `{}` used when no frontmatter is present. -/
def emptyYamlMeta : YamlMeta := ⟨none, none, none, none, none, none, none, none, none⟩

/-- The lengths `k` such that the first `k` characters of `r` are a
whitespace run whose last character is a newline — i.e. the ways the regex
fragment `\s*\n` can match a prefix of `r` (listed ascending). -/
def wsNlLens (r : List Char) : List Nat :=
  (List.range (r.length + 1)).filterMap (fun k =>
    if 1 ≤ k ∧ (r.take (k - 1)).all isWsJs ∧ r.get? (k - 1) = some '\n' then some k
    else none)

/-- The anchored match of `/^---\s*\n([\s\S]*?)\n---\s*\n([\s\S]*)$/`,
with the greedy `\s*` fragments tried longest-first and the lazy middle
group shortest-first, exactly as the backtracking regex engine does.
Returns the two captured groups (frontmatter, body). -/
def matchFmIdx (content : List Char) : Option (List Char × List Char) :=
  if (cs "---").isPrefixOf content then
    let r := content.drop 3
    (wsNlLens r).reverse.findSome? (fun k1 =>
      let s1 := r.drop k1
      (List.range (s1.length + 1)).findSome? (fun i =>
        if (cs "\n---").isPrefixOf (s1.drop i) then
          let s2 := (s1.drop i).drop 4
          (wsNlLens s2).reverse.findSome? (fun k2 =>
            some (s1.take i, s2.drop k2))
        else none))
  else none

/-- The index-pipeline errors: the only step of `processAndUploadGuides`
that can throw before or during the state writes is the YAML parse. -/
inductive IdxErr
  | yamlError
deriving DecidableEq

/-- `extractFrontmatter` of `guide-processor/index.ts`: on a regex match
parse the captured YAML (modelled by the `yamlP` parameter; `none` is a
parser throw), otherwise fall back to empty metadata and the whole content
as body. -/
def extractFrontmatterIdx (yamlP : List Char → Option YamlMeta) (content : List Char) :
    Option (YamlMeta × List Char) :=
  match matchFmIdx content with
  | some (fm, body) =>
    match yamlP fm with
    | some m => some (m, body)
    | none => none
  | none => some (emptyYamlMeta, content)

/-- `file.name.replace(/\.md$/, '')`. -/
def stripMdExt (name : List Char) : List Char :=
  if (cs ".md").isSuffixOf name then name.take (name.length - 3) else name

/-- `file.name.replace(/\.md$/, '').toLowerCase().replace(/\s+/g, '-')`. -/
def guideIdOf (name : List Char) : List Char :=
  wsToDash (lowerStr (stripMdExt name))

/-- JS `x || d` on an optional string field (`undefined` and the empty
string are both falsy). -/
def orDefault (v : Option (List Char)) (d : List Char) : List Char :=
  match v with
  | some s => if s = [] then d else s
  | none => d

/-- The `guides` row bound by the index pipeline (`jf` models
`JSON.stringify` on a string array, `now` models `new Date().toISOString()`). -/
def guideRowIdx (jf : List (List Char) → List Char) (now : List Char)
    (name : List Char) (m : YamlMeta) (gid : List Char) : GuideRow :=
  { id := gid
    title := orDefault m.title name
    category := match m.category with
      | some (CatV.many l) => List.intercalate (cs ", ") l
      | some (CatV.one c) => if c = [] then cs "uncategorized" else c
      | none => cs "uncategorized"
    subcategory := match m.subcategory with
      | some s => if s = [] then none else some s
      | none => none
    gtype := orDefault m.gtype (cs "guide")
    status := orDefault m.status (cs "draft")
    version := orDefault m.version (cs "1.0")
    last_updated := orDefault m.last_updated now
    tags := jf (match m.tags with | some ts => ts | none => [])
    related_guides := match m.related_guides with
      | some rg => some (jf rg)
      | none => none
    markdown_url := cs "guides/" ++ gid ++ cs ".md" }

/-- The `sections` row bound for one parsed section. -/
def sectionRowIdx (gid : List Char) (s : SectionP) : SectionRow :=
  ⟨s.id, gid, s.level, s.title, s.content, s.start_line, s.end_line⟩

/-- `INSERT … ON CONFLICT(id) DO UPDATE` on the `sections` table: replace
the row with the conflicting primary key, else append. -/
def upsertSection (l : List SectionRow) (r : SectionRow) : List SectionRow :=
  if (l.find? (fun x => x.id == r.id)).isSome then
    l.map (fun x => if x.id == r.id then r else x)
  else l ++ [r]

/-- The sequential section upserts of `storeInD1`. -/
def upsertSections (l : List SectionRow) (rs : List SectionRow) : List SectionRow :=
  rs.foldl upsertSection l

/-- The single `guides_fts` row inserted for a guide: the sections'
contents joined with `'\n'`. -/
def ftsRowIdx (g : GuideRow) (sections : List SectionP) : FtsRow :=
  ⟨g.id, g.title, List.intercalate ['\n'] (sections.map (fun s => s.content)), g.tags⟩

/-- `storeInD1` of the index pipeline: upsert the guide row, upsert each
section row, then replace the guide's FTS rows by delete-then-insert. -/
def storeInD1Idx (st : Store) (g : GuideRow) (sections : List SectionP) : Store :=
  { st with
    guides := fun k => if k = g.id then some g else st.guides k
    sections := upsertSections st.sections (sections.map (sectionRowIdx g.id))
    fts := (st.fts.filter (fun r => !(r.guide_id == g.id))) ++ [ftsRowIdx g sections] }

/-- Processing of one file by `processAndUploadGuides` of the index
pipeline: extract frontmatter (a YAML throw aborts before any write),
upload the raw content to R2, parse sections, store in D1;
`createVectorEmbeddings` is an unimplemented placeholder and writes
nothing. -/
def processOneIdx (yamlP : List Char → Option YamlMeta)
    (jf : List (List Char) → List Char) (now : List Char)
    (file : FileG) (st : Store) : Store × Option IdxErr :=
  match extractFrontmatterIdx yamlP file.content with
  | none => (st, some IdxErr.yamlError)
  | some (m, body) =>
    let gid := guideIdOf file.name
    let st1 := { st with
      r2 := fun k => if k = cs "guides/" ++ gid ++ cs ".md" then some file.content
        else st.r2 k }
    let sections := parseMarkdown body
    let g := guideRowIdx jf now file.name m gid
    (storeInD1Idx st1 g sections, none)

/-- The file loop of the index pipeline's `processAndUploadGuides`: the
`catch` block rethrows, so the first failing document aborts the batch. -/
def processGuidesIdx (yamlP : List Char → Option YamlMeta)
    (jf : List (List Char) → List Char) (now : List Char) :
    List FileG → Store → Store × Option IdxErr
  | [], st => (st, none)
  | f :: fs, st =>
    match processOneIdx yamlP jf now f st with
    | (st2, none) => processGuidesIdx yamlP jf now fs st2
    | (st2, some e) => (st2, some e)

/-- A YAML parser model that rejects every input (models a parser throw). -/
def yamlNoneP : List Char → Option YamlMeta := fun _ => none

/-- JSON escaping of a string body (quotes and backslashes). -/
def jsonEsc : List Char → List Char
  | [] => []
  | c :: r => if c = '"' ∨ c = '\\' then '\\' :: c :: jsonEsc r else c :: jsonEsc r

/-- `JSON.stringify` on an array of strings. -/
def jsonArrLit (ts : List (List Char)) : List Char :=
  '[' :: (List.intercalate [','] (ts.map (fun t => '"' :: (jsonEsc t ++ ['"'])))) ++ [']']

/-- C1 counterexample: in the index pipeline a document whose text lacks
the delimited frontmatter header is not rejected — `extractFrontmatter`
falls back to empty metadata, processing succeeds (no error), and both the
R2 object and the D1 guide row for that document are written. -/
theorem c1_counterexample :
    (processOneIdx yamlNoneP jsonArrLit (cs "2025-01-01")
      ⟨cs "Test.md", cs "hello world"⟩ emptyStore).2 = none
    ∧ ((processOneIdx yamlNoneP jsonArrLit (cs "2025-01-01")
      ⟨cs "Test.md", cs "hello world"⟩ emptyStore).1.guides (cs "test")).isSome
    ∧ ((processOneIdx yamlNoneP jsonArrLit (cs "2025-01-01")
      ⟨cs "Test.md", cs "hello world"⟩ emptyStore).1.r2 (cs "guides/test.md")).isSome := by
  decide

/-- A document with a well-formed frontmatter block whose YAML the
(modelled) parser rejects. -/
def badFile : FileG := ⟨cs "bad.md", cs "---\nx\n---\nbody"⟩

/-- A document without frontmatter that processes successfully. -/
def goodFile : FileG := ⟨cs "good.md", cs "hello"⟩

/-- C2 counterexample: in the index pipeline the failure of `bad.md` (a
YAML parse error) rethrows out of the file loop, so `good.md` — which is
processed successfully when submitted alone — is never processed when it
follows the failing document in the same batch. -/
theorem c2_counterexample :
    (processGuidesIdx yamlNoneP jsonArrLit (cs "2025-01-01") [badFile, goodFile]
      emptyStore).2 = some IdxErr.yamlError
    ∧ (processGuidesIdx yamlNoneP jsonArrLit (cs "2025-01-01") [badFile, goodFile]
        emptyStore).1.guides (cs "good") = none
    ∧ ((processGuidesIdx yamlNoneP jsonArrLit (cs "2025-01-01") [goodFile]
        emptyStore).1.guides (cs "good")).isSome := by
  decide

/-! ### Idempotence of re-processing (index pipeline) -/

theorem upsertSection_all_eq (l : List SectionRow) (r : SectionRow) :
    ∀ x ∈ upsertSection l r, x.id = r.id → x = r := by
  rw [upsertSection]
  split
  · intro x hx hid
    obtain ⟨y, hy, hxy⟩ := List.mem_map.mp hx
    by_cases hy2 : y.id == r.id
    · rw [← hxy, if_pos hy2]
    · rw [← hxy, if_neg hy2] at hid
      exact absurd (by simpa using hid) (by simpa using hy2)
  · rename_i hf
    intro x hx hid
    rcases List.mem_append.mp hx with h | h
    · have hnone : l.find? (fun x => x.id == r.id) = none :=
        Option.not_isSome_iff_eq_none.mp hf
      have := List.find?_eq_none.mp hnone x h
      exact absurd (by simpa using hid) (by simpa using this)
    · simpa using h

theorem upsertSection_exists (l : List SectionRow) (r : SectionRow) :
    ∃ x ∈ upsertSection l r, x.id = r.id := by
  rw [upsertSection]
  split
  · rename_i hf
    obtain ⟨y, hy⟩ := Option.isSome_iff_exists.mp hf
    have hy2 := List.find?_some hy
    have hymem := List.mem_of_find?_eq_some hy
    refine ⟨r, ?_, rfl⟩
    exact List.mem_map.mpr ⟨y, hymem, by simp [hy2]⟩
  · exact ⟨r, by simp, rfl⟩

theorem upsertSection_pres_all (l : List SectionRow) (q : SectionRow) (k : List Char)
    (rr : SectionRow) (hq : q.id ≠ k)
    (h : ∀ x ∈ l, x.id = k → x = rr) :
    ∀ x ∈ upsertSection l q, x.id = k → x = rr := by
  rw [upsertSection]
  split
  · intro x hx hid
    obtain ⟨y, hy, rfl⟩ := List.mem_map.mp hx
    by_cases hy2 : y.id == q.id
    · rw [if_pos hy2] at hid ⊢
      exact absurd hid hq
    · rw [if_neg hy2] at hid ⊢
      exact h y hy hid
  · intro x hx hid
    rcases List.mem_append.mp hx with h2 | h2
    · exact h x h2 hid
    · simp only [List.mem_singleton] at h2
      subst h2
      exact absurd hid hq

theorem upsertSection_pres_exists (l : List SectionRow) (q : SectionRow) (k : List Char)
    (hq : q.id ≠ k) (h : ∃ x ∈ l, x.id = k) :
    ∃ x ∈ upsertSection l q, x.id = k := by
  obtain ⟨y, hy, hyk⟩ := h
  rw [upsertSection]
  split
  · refine ⟨y, ?_, hyk⟩
    refine List.mem_map.mpr ⟨y, hy, ?_⟩
    rw [if_neg (by simp only [beq_iff_eq, hyk]; exact fun hc => hq hc.symm)]
  · exact ⟨y, List.mem_append.mpr (Or.inl hy), hyk⟩

theorem upsertSections_pres_all (rs : List SectionRow) :
    ∀ (l : List SectionRow) (k : List Char) (rr : SectionRow),
      (∀ q ∈ rs, q.id ≠ k) →
      (∀ x ∈ l, x.id = k → x = rr) →
      ∀ x ∈ upsertSections l rs, x.id = k → x = rr := by
  induction rs with
  | nil => intro l k rr _ h; exact h
  | cons q rs2 ih =>
    intro l k rr hq h
    rw [upsertSections, List.foldl_cons]
    exact ih (upsertSection l q) k rr (fun p hp => hq p (List.mem_cons_of_mem _ hp))
      (upsertSection_pres_all l q k rr (hq q (by simp)) h)

theorem upsertSections_pres_exists (rs : List SectionRow) :
    ∀ (l : List SectionRow) (k : List Char),
      (∀ q ∈ rs, q.id ≠ k) →
      (∃ x ∈ l, x.id = k) →
      ∃ x ∈ upsertSections l rs, x.id = k := by
  induction rs with
  | nil => intro l k _ h; exact h
  | cons q rs2 ih =>
    intro l k hq h
    rw [upsertSections, List.foldl_cons]
    exact ih (upsertSection l q) k (fun p hp => hq p (List.mem_cons_of_mem _ hp))
      (upsertSection_pres_exists l q k (hq q (by simp)) h)

theorem upsertSection_noop (l : List SectionRow) (r : SectionRow)
    (hex : ∃ x ∈ l, x.id = r.id)
    (hall : ∀ x ∈ l, x.id = r.id → x = r) :
    upsertSection l r = l := by
  rw [upsertSection, if_pos ?hs]
  case hs =>
    obtain ⟨x, hx, hid⟩ := hex
    rw [List.find?_isSome]
    exact ⟨x, hx, by simp [hid]⟩
  have hpt : ∀ x ∈ l, (if x.id == r.id then r else x) = x := by
    intro x hx
    by_cases h2 : x.id == r.id
    · rw [if_pos h2, hall x hx (by simpa using h2)]
    · rw [if_neg h2]
  calc l.map (fun x => if x.id == r.id then r else x) = l.map id :=
        List.map_congr_left hpt
    _ = l := List.map_id l

theorem upsertSections_idem (rs : List SectionRow) :
    ∀ l, (rs.map (fun r => r.id)).Nodup →
      upsertSections (upsertSections l rs) rs = upsertSections l rs := by
  induction rs with
  | nil => intro l _; rfl
  | cons r rs2 ih =>
    intro l hnd
    have hnd1 : (r.id :: rs2.map (fun r => r.id)).Nodup := by simpa using hnd
    obtain ⟨hnotin, hnd2⟩ := List.nodup_cons.mp hnd1
    have hhead : ∀ q ∈ rs2, q.id ≠ r.id := by
      intro q hq hc
      exact hnotin (List.mem_map.mpr ⟨q, hq, hc⟩)
    have hM_all : ∀ x ∈ upsertSections (upsertSection l r) rs2, x.id = r.id → x = r :=
      upsertSections_pres_all rs2 (upsertSection l r) r.id r hhead
        (upsertSection_all_eq l r)
    have hM_ex : ∃ x ∈ upsertSections (upsertSection l r) rs2, x.id = r.id :=
      upsertSections_pres_exists rs2 (upsertSection l r) r.id hhead
        (upsertSection_exists l r)
    have h1 : upsertSections l (r :: rs2) = upsertSections (upsertSection l r) rs2 := by
      rw [upsertSections, List.foldl_cons]
      rfl
    have h2 : upsertSections (upsertSections (upsertSection l r) rs2) (r :: rs2) =
        upsertSections (upsertSection (upsertSections (upsertSection l r) rs2) r) rs2 := by
      rw [upsertSections, List.foldl_cons]
      rfl
    rw [h1, h2, upsertSection_noop _ r hM_ex hM_all]
    exact ih (upsertSection l r) hnd2

/-- Decimal decoding, the left inverse of `natChars`. -/
def digitsToNat (l : List Char) : Nat :=
  l.foldl (fun a c => a * 10 + (c.toNat - 48)) 0

theorem digitsToNat_append_digit (l : List Char) (c : Char) :
    digitsToNat (l ++ [c]) = digitsToNat l * 10 + (c.toNat - 48) := by
  rw [digitsToNat, digitsToNat, List.foldl_append]
  rfl

theorem digit_char_toNat : ∀ d, d < 10 → (Char.ofNat (48 + d)).toNat = 48 + d := by
  decide

theorem digitsToNat_natCharsAux :
    ∀ (fuel n : Nat), n < fuel → digitsToNat (natCharsAux fuel n) = n := by
  intro fuel
  induction fuel with
  | zero => intro n h; omega
  | succ f ih =>
    intro n h
    rw [natCharsAux]
    by_cases h10 : n < 10
    · rw [if_pos h10]
      have hv := digit_char_toNat n h10
      simp [digitsToNat, hv]
    · rw [if_neg h10]
      rw [digitsToNat_append_digit]
      have hlt : n / 10 < n := Nat.div_lt_self (by omega) (by omega)
      rw [ih (n / 10) (by omega)]
      have hv := digit_char_toNat (n % 10) (Nat.mod_lt n (by omega))
      rw [hv]
      have hdm := Nat.div_add_mod n 10
      omega

theorem natChars_inj (a b : Nat) (h : natChars a = natChars b) : a = b := by
  have h2 : digitsToNat (natChars a) = digitsToNat (natChars b) := by rw [h]
  rw [natChars, natChars, digitsToNat_natCharsAux _ _ (by omega),
    digitsToNat_natCharsAux _ _ (by omega)] at h2
  exact h2

theorem secId_inj (a b : Nat) (h : secId a = secId b) : a = b := by
  rw [secId, secId] at h
  exact natChars_inj a b (List.append_cancel_left h)

theorem parseMdAux_ids :
    ∀ (lines : List (List Char)) (n : Nat) (cur : Option SectionP) (acc : List SectionP),
      acc.map (fun s => s.id) = (List.range acc.length).map (fun j => secId (j + 1)) →
      (match cur with
       | none => True
       | some c => c.id = secId (acc.length + 1)) →
      (parseMdAux lines n cur acc).map (fun s => s.id) =
        (List.range (parseMdAux lines n cur acc).length).map (fun j => secId (j + 1)) := by
  intro lines
  induction lines with
  | nil =>
    intro n cur acc hacc hcur
    cases cur with
    | none => exact hacc
    | some c =>
      have heq : parseMdAux [] n (some c) acc = acc ++ [{ c with end_line := n }] := rfl
      rw [heq, List.map_append, hacc]
      have hlen : (acc ++ [{ c with end_line := n }]).length = acc.length + 1 := by simp
      rw [hlen, List.range_succ, List.map_append]
      simp only [List.map_cons, List.map_nil]
      rw [show ({ c with end_line := n } : SectionP).id = c.id from rfl, hcur]
  | cons line rest ih =>
    intro n cur acc hacc hcur
    cases hhd : isHeader line with
    | some lt =>
      obtain ⟨lvl, t⟩ := lt
      cases cur with
      | none =>
        have heq : parseMdAux (line :: rest) n none acc =
            parseMdAux rest (n + 1)
              (some { id := secId (acc.length + 1), level := lvl, title := t, content := [],
                      start_line := n + 1, end_line := n + 1 }) acc := by
          simp only [parseMdAux, hhd]
        rw [heq]
        exact ih (n + 1) _ acc hacc rfl
      | some c =>
        have hacc2 : ((acc ++ [{ c with end_line := n }]).map (fun (s : SectionP) => s.id)) =
            (List.range (acc ++ [{ c with end_line := n }]).length).map
              (fun j => secId (j + 1)) := by
          rw [List.map_append, hacc]
          have hlen : (acc ++ [{ c with end_line := n }]).length = acc.length + 1 := by simp
          rw [hlen, List.range_succ, List.map_append]
          simp only [List.map_cons, List.map_nil]
          rw [show ({ c with end_line := n } : SectionP).id = c.id from rfl, hcur]
        have heq : parseMdAux (line :: rest) n (some c) acc =
            parseMdAux rest (n + 1)
              (some { id := secId ((acc ++ [{ c with end_line := n }]).length + 1),
                      level := lvl, title := t, content := [],
                      start_line := n + 1, end_line := n + 1 })
              (acc ++ [{ c with end_line := n }]) := by
          simp only [parseMdAux, hhd]
        rw [heq]
        exact ih (n + 1) _ _ hacc2 rfl
    | none =>
      cases cur with
      | none =>
        have heq : parseMdAux (line :: rest) n none acc = parseMdAux rest (n + 1) none acc := by
          simp only [parseMdAux, hhd]
        rw [heq]
        exact ih (n + 1) none acc hacc trivial
      | some c =>
        have heq : parseMdAux (line :: rest) n (some c) acc =
            parseMdAux rest (n + 1)
              (some { c with content := c.content ++ line ++ ['\n'] }) acc := by
          simp only [parseMdAux, hhd]
        rw [heq]
        exact ih (n + 1) _ acc hacc (by simpa using hcur)

theorem parseMarkdown_ids_nodup (md : List Char) :
    ((parseMarkdown md).map (fun s => s.id)).Nodup := by
  rw [parseMarkdown, parseMdAux_ids (splitLines md) 0 none [] (by simp) trivial]
  refine List.Nodup.map ?_ (List.nodup_range _)
  intro a b hab
  have := secId_inj (a + 1) (b + 1) hab
  omega

theorem filter_self_idem {α : Type} (p : α → Bool) (xs : List α) :
    (xs.filter p).filter p = xs.filter p := by
  simp [List.filter_filter]

/-- C8 (confirmed): processing the same document twice through the index
pipeline leaves the R2 object, the `sections` rows, the `guides_fts` rows
and the vector entries exactly as a single processing pass does — the
section upserts and the delete-then-insert FTS replacement are idempotent,
and the unimplemented vectorization writes nothing.  (Only the guide
metadata row's `last_updated` value may differ, via `new Date()`, modelled
by the explicit `now` arguments.) -/
theorem processOneIdx_idempotent (yamlP : List Char → Option YamlMeta)
    (jf : List (List Char) → List Char) (now now2 : List Char) (file : FileG) (st : Store) :
    ((processOneIdx yamlP jf now2 file (processOneIdx yamlP jf now file st).1).1).sections
        = ((processOneIdx yamlP jf now file st).1).sections
    ∧ ((processOneIdx yamlP jf now2 file (processOneIdx yamlP jf now file st).1).1).fts
        = ((processOneIdx yamlP jf now file st).1).fts
    ∧ ((processOneIdx yamlP jf now2 file (processOneIdx yamlP jf now file st).1).1).r2
        = ((processOneIdx yamlP jf now file st).1).r2
    ∧ ((processOneIdx yamlP jf now2 file (processOneIdx yamlP jf now file st).1).1).vectors
        = ((processOneIdx yamlP jf now file st).1).vectors := by
  cases hfm : extractFrontmatterIdx yamlP file.content with
  | none =>
    simp [processOneIdx, hfm]
  | some pr =>
    obtain ⟨m, body⟩ := pr
    have hrun : ∀ (nw : List Char) (s : Store), (processOneIdx yamlP jf nw file s).1 =
        storeInD1Idx
          { s with r2 := fun k =>
              if k = cs "guides/" ++ guideIdOf file.name ++ cs ".md" then some file.content
              else s.r2 k }
          (guideRowIdx jf nw file.name m (guideIdOf file.name)) (parseMarkdown body) := by
      intro nw s
      simp only [processOneIdx, hfm]
    have hnodup :
        (((parseMarkdown body).map (sectionRowIdx (guideIdOf file.name))).map
          (fun r => r.id)).Nodup := by
      rw [List.map_map]
      exact parseMarkdown_ids_nodup body
    rw [hrun now st, hrun now2]
    refine ⟨?_, ?_, ?_, ?_⟩
    · show upsertSections
          (upsertSections st.sections
            ((parseMarkdown body).map (sectionRowIdx (guideIdOf file.name))))
          ((parseMarkdown body).map (sectionRowIdx (guideIdOf file.name)))
        = upsertSections st.sections
            ((parseMarkdown body).map (sectionRowIdx (guideIdOf file.name)))
      exact upsertSections_idem _ _ hnodup
    · show ((st.fts.filter (fun r => !(r.guide_id == guideIdOf file.name)) ++
            [ftsRowIdx (guideRowIdx jf now file.name m (guideIdOf file.name))
              (parseMarkdown body)]).filter
              (fun r => !(r.guide_id == guideIdOf file.name))) ++
          [ftsRowIdx (guideRowIdx jf now file.name m (guideIdOf file.name))
            (parseMarkdown body)]
        = st.fts.filter (fun r => !(r.guide_id == guideIdOf file.name)) ++
            [ftsRowIdx (guideRowIdx jf now file.name m (guideIdOf file.name))
              (parseMarkdown body)]
      rw [List.filter_append, filter_self_idem]
      have hrow : (List.filter (fun r => !(r.guide_id == guideIdOf file.name))
          [ftsRowIdx (guideRowIdx jf now file.name m (guideIdOf file.name))
            (parseMarkdown body)]) = [] := by
        simp [ftsRowIdx, guideRowIdx]
      rw [hrow, List.append_nil]
    · show (fun k =>
          if k = cs "guides/" ++ guideIdOf file.name ++ cs ".md" then some file.content
          else
            (if k = cs "guides/" ++ guideIdOf file.name ++ cs ".md" then some file.content
             else st.r2 k))
        = fun k =>
            if k = cs "guides/" ++ guideIdOf file.name ++ cs ".md" then some file.content
            else st.r2 k
      funext k
      by_cases hk : k = cs "guides/" ++ guideIdOf file.name ++ cs ".md"
      · rw [if_pos hk, if_pos hk]
      · rw [if_neg hk, if_neg hk]
    · rfl

/-! ## Document processing pipeline (`docs/guide-processor.ts`, `GuideParser`
and `GuideUploader`) -/

/-- The raw `YAML.parse` result consumed by `GuideParser.parseMetadata`
(the TS interface declares `id`, `title`, `category`, `type`, `status`,
`version` and `last_updated` as present). -/
structure YamlDocs where
  id : List Char
  title : List Char
  category : CatV
  subcategory : Option (List Char)
  gtype : List Char
  status : List Char
  version : List Char
  last_updated : List Char
  languages : Option (List (List Char))
  frameworks : Option (List (List Char))
  platforms : Option (List (List Char))
  tags : Option (List (List Char))
  related_guides : Option (List (List Char))
deriving DecidableEq

/-- The anchored match of `/^---\n([\s\S]+?)\n---\n([\s\S]+)$/`: the text
must start with `"---\n"`, the lazy non-empty frontmatter group is the
shortest one followed by `"\n---\n"` and a non-empty body. -/
def matchFmDocs (content : List Char) : Option (List Char × List Char) :=
  if (cs "---\n").isPrefixOf content then
    let r := content.drop 4
    (List.range (r.length + 1)).findSome? (fun i =>
      if 1 ≤ i ∧ (cs "\n---\n").isPrefixOf (r.drop i) ∧ r.drop (i + 5) ≠ [] then
        some (r.take i, r.drop (i + 5))
      else none)
  else none

/-- `GuideParser.parseMetadata`: wrap a plain category into a one-element
array, default `tags` and `related_guides` to empty arrays. -/
def parseMetadataDocs (y : YamlDocs) : GuideMetaD :=
  { id := y.id
    title := y.title
    category := match y.category with
      | CatV.many l => CatV.many l
      | CatV.one c => CatV.many [c]
    subcategory := y.subcategory
    gtype := y.gtype
    status := y.status
    version := y.version
    last_updated := y.last_updated
    languages := y.languages
    frameworks := y.frameworks
    platforms := y.platforms
    tags := match y.tags with | some t => t | none => []
    related_guides := match y.related_guides with | some r => r | none => [] }

/-- `\w` of the code-fence language capture `(\w+)`. -/
def isWordCh (c : Char) : Bool :=
  ('a' ≤ c && c ≤ 'z') || ('A' ≤ c && c ≤ 'Z') || ('0' ≤ c && c ≤ '9') || c = '_'

/-- `GuideParser.extractCodeBlock`: the fence line's language word, then
every following line up to (excluding) the next fence line. -/
def extractCodeBlock (curLine : List Char) (after : List (List Char)) : Option CodeBlockD :=
  let lang := (curLine.drop 3).takeWhile isWordCh
  if (cs "```").isPrefixOf curLine ∧ lang ≠ [] then
    some ⟨lang,
      List.intercalate ['\n'] (after.takeWhile (fun l => !((cs "```").isPrefixOf l))), none⟩
  else none

/-- `[a-z0-9]` of `generateSectionId`. -/
def isLowerAlnum (c : Char) : Bool :=
  ('a' ≤ c && c ≤ 'z') || ('0' ≤ c && c ≤ '9')

/-- `replace(/^-|-$/g, '')`: drop one leading and one trailing dash. -/
def stripEdgeDash (s : List Char) : List Char :=
  let s1 := match s with
    | '-' :: r => r
    | _ => s
  if s1.getLast? = some '-' then s1.dropLast else s1

/-- `GuideParser.generateSectionId`: lower-case, collapse every run of
non-alphanumerics to one dash, strip edge dashes. -/
def generateSectionId (title : List Char) : List Char :=
  stripEdgeDash
    (List.intercalate ['-'] (splitRuns (fun c => !(isLowerAlnum c)) false (lowerStr title)))

/-- The open section of `GuideParser.extractSections`: its fields fixed at
the heading line, while content lines and code blocks accumulate. -/
structure PartSec where
  id : List Char
  level : Nat
  title : List Char
  startLine : Nat
deriving DecidableEq

/-- Close an open section: its content is the accumulated lines joined with
`'\n'` and trimmed. -/
def finishSec (p : PartSec) (content : List (List Char)) (cbs : List CodeBlockD)
    (endL : Nat) : SectionD :=
  ⟨p.id, p.level, p.title, trimJs (List.intercalate ['\n'] content), cbs, p.startLine, endL⟩

/-- The line loop of `GuideParser.extractSections` (`i` is the 0-based
index of the current line).  Lines before the first heading accumulate into
buffers that are discarded when the first heading opens a section, so they
are skipped here. -/
def extractSecAux :
    List (List Char) → Nat → Option (PartSec × List (List Char) × List CodeBlockD) →
    List SectionD → List SectionD
  | [], i, cur, acc =>
    match cur with
    | none => acc
    | some (p, content, cbs) => acc ++ [finishSec p content cbs (i - 1)]
  | line :: rest, i, cur, acc =>
    match isHeader line with
    | some (lvl, title) =>
      let acc2 := match cur with
        | none => acc
        | some (p, content, cbs) => acc ++ [finishSec p content cbs (i - 1)]
      extractSecAux rest (i + 1)
        (some (⟨generateSectionId title, lvl, title, i⟩, [], [])) acc2
    | none =>
      match cur with
      | some (p, content, cbs) =>
        let cbs2 :=
          if (cs "```").isPrefixOf line then
            match extractCodeBlock line rest with
            | some cb => cbs ++ [cb]
            | none => cbs
          else cbs
        extractSecAux rest (i + 1) (some (p, content ++ [line], cbs2)) acc
      | none => extractSecAux rest (i + 1) none acc

/-- `GuideParser.extractSections`. -/
def extractSectionsDocs (content : List Char) : List SectionD :=
  extractSecAux (splitLines content) 0 none []

/-- `GuideParser.extractCodeExamples`. -/
def extractCodeExamples (ss : List SectionD) : List CodeBlockD :=
  (ss.map (fun s => s.codeBlocks)).flatten

/-- The errors that can abort one document of the docs pipeline:
`MalformedDocumentError` (`'No frontmatter found in markdown'`), a YAML
parser throw, or a D1 `UNIQUE` violation of a plain `INSERT` naming the
violated table. -/
inductive DocsErr
  | noFrontmatter
  | yamlError
  | d1Unique (table : List Char)
deriving DecidableEq

/-- `ProcessedGuide`. -/
structure ProcessedGuide where
  metadata : GuideMetaD
  sections : List SectionD
  chunks : List ChunkD
  codeExamples : List CodeBlockD
  markdown : List Char
deriving DecidableEq

/-- `GuideParser.parse`: frontmatter extraction (hard failure when the
document does not begin with the delimited header), metadata parse,
section extraction, code examples and chunking. -/
def parseDocs (yamlP : List Char → Option YamlDocs) (markdown : List Char) :
    Except DocsErr ProcessedGuide :=
  match matchFmDocs markdown with
  | none => Except.error DocsErr.noFrontmatter
  | some (fm, content) =>
    match yamlP fm with
    | none => Except.error DocsErr.yamlError
    | some y =>
      let metadata := parseMetadataDocs y
      let sections := extractSectionsDocs content
      Except.ok
        ⟨metadata, sections, createChunks metadata sections,
          extractCodeExamples sections, markdown⟩

/-- `GuideUploader.uploadToR2`. -/
def uploadToR2Docs (st : Store) (g : ProcessedGuide) : Store :=
  { st with r2 := fun k =>
      if k = cs "guides/" ++ g.metadata.id ++ cs ".md" then some g.markdown
      else st.r2 k }

/-- The `guides` row bound by `GuideUploader.storeInD1`. -/
def guideRowDocs (g : ProcessedGuide) : GuideRow :=
  { id := g.metadata.id
    title := g.metadata.title
    category := match g.metadata.category with
      | CatV.many l => List.intercalate [','] l
      | CatV.one c => c
    subcategory := match g.metadata.subcategory with
      | some s => if s = [] then none else some s
      | none => none
    gtype := g.metadata.gtype
    status := g.metadata.status
    version := g.metadata.version
    last_updated := g.metadata.last_updated
    tags := List.intercalate [','] g.metadata.tags
    related_guides :=
      if List.intercalate [','] g.metadata.related_guides = [] then none
      else some (List.intercalate [','] g.metadata.related_guides)
    markdown_url := cs "guides/" ++ g.metadata.id ++ cs ".md" }

/-- The sequential plain section `INSERT`s: a `UNIQUE` violation keeps the
rows inserted so far and aborts the rest (`true` marks the violation). -/
def insertSectionsDocs (l : List SectionRow) : List SectionRow → List SectionRow × Bool
  | [] => (l, false)
  | r :: rs =>
    if (l.find? (fun x => x.id == r.id)).isSome then (l, true)
    else insertSectionsDocs (l ++ [r]) rs

/-- The `code_examples` row for index `i`. -/
def codeRowDocs (gid : List Char) (i : Nat) (cb : CodeBlockD) : CodeRow :=
  ⟨gid ++ cs "-code-" ++ natChars i, gid, [], cb.language, cb.code, cb.caption⟩

/-- The sequential plain `code_examples` inserts. -/
def insertCodeRowsDocs (l : List CodeRow) (gid : List Char) :
    Nat → List CodeBlockD → List CodeRow × Bool
  | _, [] => (l, false)
  | i, cb :: cbs =>
    if (l.find? (fun x => x.id == (codeRowDocs gid i cb).id)).isSome then (l, true)
    else insertCodeRowsDocs (l ++ [codeRowDocs gid i cb]) gid (i + 1) cbs

/-- `GuideUploader.storeInD1`: plain inserts (no upsert, no FTS delete); a
`UNIQUE` violation aborts the remaining statements of this document while
keeping the rows already written. -/
def storeInD1Docs (st : Store) (g : ProcessedGuide) : Store × Option DocsErr :=
  if (st.guides g.metadata.id).isSome then (st, some (DocsErr.d1Unique (cs "guides")))
  else
    let grow := guideRowDocs g
    let st1 := { st with guides := fun k =>
      if k = g.metadata.id then some grow else st.guides k }
    let secRows := g.sections.map (fun s =>
      (⟨g.metadata.id ++ '-' :: s.id, g.metadata.id, s.level, s.title, s.content,
        s.startLine, s.endLine⟩ : SectionRow))
    match insertSectionsDocs st1.sections secRows with
    | (secs2, true) =>
      ({ st1 with sections := secs2 }, some (DocsErr.d1Unique (cs "sections")))
    | (secs2, false) =>
      let st2 := { st1 with sections := secs2 }
      match insertCodeRowsDocs st2.codeExs g.metadata.id 0 g.codeExamples with
      | (ce2, true) =>
        ({ st2 with codeExs := ce2 }, some (DocsErr.d1Unique (cs "code_examples")))
      | (ce2, false) =>
        let st3 := { st2 with codeExs := ce2 }
        let row : FtsRow := ⟨g.metadata.id, g.metadata.title,
          List.intercalate nl2 (g.sections.map (fun s => s.content)),
          List.intercalate [' '] g.metadata.tags⟩
        ({ st3 with fts := st3.fts ++ [row] }, none)

/-- A Vectorize entry for one chunk (`metadata.text` is a 1000-character
preview). -/
def vecRowOf (c : ChunkD) : VecRow :=
  ⟨c.id, cs "guides", c.text, c.text.take 1000, c.metadata.category,
    c.metadata.subcategory, c.metadata.framework, c.metadata.language, c.metadata.tags⟩

/-- `GuideUploader.vectorize`: Vectorize `insert` skips entries whose id
already exists. -/
def vectorizeDocs (st : Store) (g : ProcessedGuide) : Store :=
  { st with vectors :=
      (g.chunks.foldl
        (fun acc c =>
          if (acc.find? (fun v => v.id == c.id)).isSome then acc else acc ++ [vecRowOf c])
        st.vectors) }

/-- `GuideUploader.upload`: R2, then D1 (aborting on its error), then
Vectorize. -/
def uploadDocs (st : Store) (g : ProcessedGuide) : Store × Option DocsErr :=
  let st1 := uploadToR2Docs st g
  match storeInD1Docs st1 g with
  | (st2, some e) => (st2, some e)
  | (st2, none) => (vectorizeDocs st2 g, none)

/-- One iteration of the docs `processAndUploadGuides` loop body:
`parser.parse` runs before any store write, and its failure leaves the
state untouched; the surrounding `try`/`catch` turns every failure into a
per-document report. -/
def processOneDocs (yamlP : List Char → Option YamlDocs) (f : FileG) (st : Store) :
    Store × Option DocsErr :=
  match parseDocs yamlP f.content with
  | Except.error e => (st, some e)
  | Except.ok g => uploadDocs st g

/-- The docs `processAndUploadGuides` file loop: every document is
processed and reported individually; the batch always continues. -/
def batchDocs (yamlP : List Char → Option YamlDocs) :
    List FileG → Store → Store × List (List Char × Option DocsErr)
  | [], st => (st, [])
  | f :: fs, st =>
    let r := processOneDocs yamlP f st
    let rest := batchDocs yamlP fs r.1
    (rest.1, (f.name, r.2) :: rest.2)

/-- A docs-pipeline YAML parser model that accepts nothing. -/
def yamlDocsNoneP : List Char → Option YamlDocs := fun _ => none

theorem processOneDocs_malformed_eq (yamlP : List Char → Option YamlDocs) (f : FileG)
    (st : Store) (h : matchFmDocs f.content = none) :
    processOneDocs yamlP f st = (st, some DocsErr.noFrontmatter) := by
  simp [processOneDocs, parseDocs, h]

/-- C1 (amended): in the `GuideParser` pipeline, a document whose text does
not begin with the delimited frontmatter block fails with
`MalformedDocumentError` (`'No frontmatter found in markdown'`, modelled as
`DocsErr.noFrontmatter`) and its processing leaves the entire store —
object store, relational tables, full-text index and vector index — exactly
as it was.  (The index pipeline instead falls back to empty metadata and
writes such a document to the stores; see the C1 counterexample.) -/
theorem processOneDocs_malformed (yamlP : List Char → Option YamlDocs) (f : FileG)
    (st : Store) (h : matchFmDocs f.content = none) :
    processOneDocs yamlP f st = (st, some DocsErr.noFrontmatter) :=
  processOneDocs_malformed_eq yamlP f st h

/-- Witness for the amended C1 theorem at a concrete header-less document
and a concrete populated store. -/
theorem processOneDocs_malformed_witness :
    matchFmDocs (cs "no header here") = none ∧
    processOneDocs yamlDocsNoneP ⟨cs "x.md", cs "no header here"⟩ store0 =
      (store0, some DocsErr.noFrontmatter) :=
  ⟨by decide,
    processOneDocs_malformed yamlDocsNoneP ⟨cs "x.md", cs "no header here"⟩ store0
      (by decide)⟩

theorem batchDocs_append (yamlP : List Char → Option YamlDocs) (xs ys : List FileG) :
    ∀ st, batchDocs yamlP (xs ++ ys) st =
      ((batchDocs yamlP ys (batchDocs yamlP xs st).1).1,
        (batchDocs yamlP xs st).2 ++ (batchDocs yamlP ys (batchDocs yamlP xs st).1).2) := by
  induction xs with
  | nil => intro st; simp [batchDocs]
  | cons f fs ih =>
    intro st
    have hcons : (f :: fs) ++ ys = f :: (fs ++ ys) := rfl
    rw [hcons]
    simp only [batchDocs]
    rw [ih]
    simp

/-- C2 (amended): in the docs pipeline no document ever aborts the batch —
every submitted document receives its own individual report — and a
document rejected by the frontmatter parse contributes exactly its own
`MalformedDocumentError` report while leaving the store state passed on to
the remaining documents untouched, so the rest of the batch proceeds
exactly as if the failing document were processed in isolation.  (The
index pipeline instead rethrows and abandons the remaining documents; see
the C2 counterexample.) -/
theorem batchDocs_isolation (yamlP : List Char → Option YamlDocs) :
    (∀ (files : List FileG) (st : Store),
      ((batchDocs yamlP files st).2).length = files.length)
    ∧ ∀ (st : Store) (pre post : List FileG) (bad : FileG),
        matchFmDocs bad.content = none →
        batchDocs yamlP (pre ++ bad :: post) st =
          ((batchDocs yamlP post (batchDocs yamlP pre st).1).1,
            (batchDocs yamlP pre st).2 ++
              (bad.name, some DocsErr.noFrontmatter) ::
                (batchDocs yamlP post (batchDocs yamlP pre st).1).2) := by
  constructor
  · intro files
    induction files with
    | nil => intro st; rfl
    | cons f fs ih =>
      intro st
      simp only [batchDocs, List.length_cons]
      rw [ih]
  · intro st pre post bad hbad
    rw [batchDocs_append]
    have hstep : ∀ s, batchDocs yamlP (bad :: post) s =
        ((batchDocs yamlP post s).1,
          (bad.name, some DocsErr.noFrontmatter) :: (batchDocs yamlP post s).2) := by
      intro s
      simp only [batchDocs, processOneDocs_malformed_eq yamlP bad s hbad]
    rw [hstep]

/-- Witness for the amended C2 theorem: a concrete batch whose middle
document lacks the frontmatter header. -/
theorem batchDocs_isolation_witness :
    matchFmDocs (cs "no header here") = none ∧
    ((batchDocs yamlDocsNoneP [goodFile] emptyStore).2).length = 1 ∧
    batchDocs yamlDocsNoneP ([goodFile] ++ ⟨cs "x.md", cs "no header here"⟩ :: [goodFile])
        emptyStore =
      ((batchDocs yamlDocsNoneP [goodFile]
          (batchDocs yamlDocsNoneP [goodFile] emptyStore).1).1,
        (batchDocs yamlDocsNoneP [goodFile] emptyStore).2 ++
          (cs "x.md", some DocsErr.noFrontmatter) ::
            (batchDocs yamlDocsNoneP [goodFile]
              (batchDocs yamlDocsNoneP [goodFile] emptyStore).1).2) :=
  ⟨by decide,
    (batchDocs_isolation yamlDocsNoneP).1 [goodFile] emptyStore,
    (batchDocs_isolation yamlDocsNoneP).2 emptyStore [goodFile] [goodFile]
      ⟨cs "x.md", cs "no header here"⟩ (by decide)⟩
